import Mathlib

/-!
Verification of the subscription multiplexer (`CallbacksHandler`) from
`src/client/src/firebase/firestore/handler/callbacks-handler.ts`.

The handler keeps two JavaScript `Map` registries, one for per-document
watches and one for per-collection watches.  Each registry maps a string
resource key to an entry holding an optional live-watch handle
(`unsubscribe`) and an insertion-ordered `Map` from callback id to callback.

JavaScript `Map`s preserve insertion order; `set` on an existing key
replaces the value in place, otherwise appends; `delete` removes the
binding.  We model such a map faithfully as an association list.
Live watches opened via `onSnapshot` are modelled as records in a list of
currently open watches; calling the returned `unsubscribe` removes the
record.  Callback functions are a type parameter `Cb`; for dispatch
reasoning we instantiate `Cb` with a small language of registry actions.
-/

namespace VoiceBuddy

/-- A JavaScript `Map` with string keys: an insertion-ordered association
list. -/
abbrev JsMap (α : Type) : Type := List (String × α)

/-- `Map.prototype.get`: the value bound to the first occurrence of `k`. -/
def jsGet {α : Type} (m : JsMap α) (k : String) : Option α :=
  (m.find? (fun kv => kv.1 = k)).map (·.2)

/-- `Map.prototype.has`. -/
def jsHas {α : Type} (m : JsMap α) (k : String) : Bool :=
  m.any (fun kv => kv.1 = k)

/-- `Map.prototype.set`: replace in place when the key is present
(insertion order preserved), otherwise append at the end. -/
def jsSet {α : Type} (m : JsMap α) (k : String) (v : α) : JsMap α :=
  if jsHas m k then m.map (fun kv => if kv.1 = k then (k, v) else kv)
  else m ++ [(k, v)]

/-- `Map.prototype.delete` (ignoring the returned boolean). -/
def jsDelete {α : Type} (m : JsMap α) (k : String) : JsMap α :=
  m.filter (fun kv => kv.1 ≠ k)

/-- `Map.prototype.size`. -/
def jsSize {α : Type} (m : JsMap α) : Nat := m.length

/-- The keys of the map in insertion order. -/
def jsKeys {α : Type} (m : JsMap α) : List String := m.map (·.1)

/-- Which registry a live watch was opened against: `onSnapshot` on a
document reference or on a collection reference. -/
inductive WatchKind : Type
  | doc : WatchKind
  | coll : WatchKind
deriving DecidableEq, Repr

/-- A live watch currently open against the remote store: the handle
identity (`id`), which `onSnapshot` overload opened it, and the resource
key it serves. -/
structure OpenWatch : Type where
  id : Nat
  kind : WatchKind
  key : String
deriving DecidableEq, Repr

/-- The `Callback<Read>` / `CollectionCallback<Read>` interfaces: an
optional unsubscribe handle and the ordered callback map `func`. -/
structure Callback (Cb : Type) : Type where
  unsubscribe : Option Nat
  func : JsMap Cb
deriving DecidableEq, Repr

/-- The state of a `CallbacksHandler` instance together with the remote
store's view of which watches are open.  `callbacks` is keyed by
`collectionRef.path ++ "/" ++ documentId`, `collectionCallbacks` by
`collectionRef.path`.  `watches` are the currently open live handles;
`nextWatchId` supplies fresh handle identities. -/
structure CallbacksHandler (Cb : Type) : Type where
  callbacks : JsMap (Callback Cb)
  collectionCallbacks : JsMap (Callback Cb)
  watches : List OpenWatch
  nextWatchId : Nat
deriving DecidableEq, Repr

/-- A freshly constructed handler: both registries empty, no open watch. -/
def initHandler (Cb : Type) : CallbacksHandler Cb :=
  { callbacks := [], collectionCallbacks := [], watches := [], nextWatchId := 0 }

/-- Calling `unsubscribe?.()`: when a handle is recorded, the remote store
closes that watch. -/
def closeWatch {Cb : Type} (s : CallbacksHandler Cb) (h : Option Nat) :
    CallbacksHandler Cb :=
  match h with
  | none => s
  | some hid => { s with watches := s.watches.filter (fun w => w.id ≠ hid) }

/-- `createDocumentCallbackEntry`: open an `onSnapshot` watch on the
document, store a fresh entry (empty `func`, the unsubscribe handle) into
`callbacks` under the key, and return the entry. -/
def createDocumentCallbackEntry {Cb : Type} (s : CallbacksHandler Cb)
    (path documentId : String) : CallbacksHandler Cb × Callback Cb :=
  let key := path ++ "/" ++ documentId
  let h := s.nextWatchId
  let entry : Callback Cb := { func := [], unsubscribe := some h }
  ({ s with
      callbacks := jsSet s.callbacks key entry
      watches := s.watches ++ [{ id := h, kind := WatchKind.doc, key := key }]
      nextWatchId := h + 1 },
   entry)

/-- `addCallback`: register a per-document callback.  `callbackId` is the
optional caller-supplied id; `gen` is the `nanoid()` value used when it is
absent.  Returns the updated state and the callback id actually used. -/
def addCallback {Cb : Type} (s : CallbacksHandler Cb)
    (path documentId : String) (callback : Cb)
    (callbackId : Option String) (gen : String) (overwrite : Bool) :
    CallbacksHandler Cb × String :=
  let key := path ++ "/" ++ documentId
  let cbId := callbackId.getD gen
  let res :=
    match jsGet s.callbacks key with
    | some callbackEntry => (s, callbackEntry)
    | none => createDocumentCallbackEntry s path documentId
  let s₁ := res.1
  let callbackEntry := res.2
  let func' :=
    if overwrite then jsSet callbackEntry.func cbId callback
    else if jsHas callbackEntry.func cbId then callbackEntry.func
    else jsSet callbackEntry.func cbId callback
  ({ s₁ with
      callbacks := jsSet s₁.callbacks key { callbackEntry with func := func' } },
   cbId)

/-- `removeCallback`: delete the callback id from the key's entry when the
entry exists; when the entry's `func` becomes empty, call its unsubscribe
handle and delete the entry from the registry. -/
def removeCallback {Cb : Type} (s : CallbacksHandler Cb)
    (path documentId : String) (callbackId : String) : CallbacksHandler Cb :=
  let key := path ++ "/" ++ documentId
  match jsGet s.callbacks key with
  | none => s
  | some callbackEntry =>
      let func' := jsDelete callbackEntry.func callbackId
      if jsSize func' = 0 then
        let s₁ := closeWatch s callbackEntry.unsubscribe
        { s₁ with callbacks := jsDelete s₁.callbacks key }
      else
        { s with
            callbacks := jsSet s.callbacks key { callbackEntry with func := func' } }

/-- `addCollectionCallback`: register a per-collection callback; the key is
the collection path itself and the watch is opened on the collection
reference. -/
def addCollectionCallback {Cb : Type} (s : CallbacksHandler Cb)
    (path : String) (callback : Cb)
    (callbackId : Option String) (gen : String) (overwrite : Bool) :
    CallbacksHandler Cb × String :=
  let key := path
  let cbId := callbackId.getD gen
  match jsGet s.collectionCallbacks key with
  | some colCallback =>
      let func' :=
        if overwrite then jsSet colCallback.func cbId callback
        else if jsHas colCallback.func cbId then colCallback.func
        else jsSet colCallback.func cbId callback
      ({ s with
          collectionCallbacks :=
            jsSet s.collectionCallbacks key { colCallback with func := func' } },
       cbId)
  | none =>
      let h := s.nextWatchId
      let colCallback : Callback Cb := { func := [], unsubscribe := some h }
      let s₁ : CallbacksHandler Cb :=
        { s with
            collectionCallbacks := jsSet s.collectionCallbacks key colCallback
            watches :=
              s.watches ++ [{ id := h, kind := WatchKind.coll, key := key }]
            nextWatchId := h + 1 }
      let func' :=
        if overwrite then jsSet colCallback.func cbId callback
        else if jsHas colCallback.func cbId then colCallback.func
        else jsSet colCallback.func cbId callback
      ({ s₁ with
          collectionCallbacks :=
            jsSet s₁.collectionCallbacks key { colCallback with func := func' } },
       cbId)

/-- `removeCollectionCallback`: mirror of `removeCallback` on the
collection registry. -/
def removeCollectionCallback {Cb : Type} (s : CallbacksHandler Cb)
    (path : String) (callbackId : String) : CallbacksHandler Cb :=
  let key := path
  match jsGet s.collectionCallbacks key with
  | none => s
  | some colCallback =>
      let func' := jsDelete colCallback.func callbackId
      if jsSize func' = 0 then
        let s₁ := closeWatch s colCallback.unsubscribe
        { s₁ with collectionCallbacks := jsDelete s₁.collectionCallbacks key }
      else
        { s with
            collectionCallbacks :=
              jsSet s.collectionCallbacks key { colCallback with func := func' } }

/-- One public operation on the handler, with the `nanoid()` value that the
environment would supply recorded in `gen`. -/
inductive Op (Cb : Type) : Type
  | addDoc (path documentId : String) (cb : Cb)
      (callbackId : Option String) (gen : String) (overwrite : Bool) : Op Cb
  | removeDoc (path documentId cbId : String) : Op Cb
  | addColl (path : String) (cb : Cb)
      (callbackId : Option String) (gen : String) (overwrite : Bool) : Op Cb
  | removeColl (path cbId : String) : Op Cb

/-- Apply one public operation (the returned callback id is dropped). -/
def applyOp {Cb : Type} (s : CallbacksHandler Cb) : Op Cb → CallbacksHandler Cb
  | Op.addDoc path documentId cb callbackId gen overwrite =>
      (addCallback s path documentId cb callbackId gen overwrite).1
  | Op.removeDoc path documentId cbId => removeCallback s path documentId cbId
  | Op.addColl path cb callbackId gen overwrite =>
      (addCollectionCallback s path cb callbackId gen overwrite).1
  | Op.removeColl path cbId => removeCollectionCallback s path cbId

/-- The state after running a sequence of public operations from a fresh
handler. -/
def run {Cb : Type} (ops : List (Op Cb)) : CallbacksHandler Cb :=
  ops.foldl applyOp (initHandler Cb)

/-- The open watches of the given kind for a key, out of a watch list. -/
def watchesOf (ws : List OpenWatch) (kind : WatchKind) (key : String) :
    List OpenWatch :=
  ws.filter (fun w => w.kind = kind && w.key = key)

/-- The live watches of the given kind currently open for a key. -/
def watchesFor {Cb : Type} (s : CallbacksHandler Cb) (kind : WatchKind)
    (key : String) : List OpenWatch :=
  watchesOf s.watches kind key

/-- The callback map registered for a document key (empty when no entry). -/
def funcAt {Cb : Type} (s : CallbacksHandler Cb) (key : String) : JsMap Cb :=
  match jsGet s.callbacks key with
  | some e => e.func
  | none => []

/-- The callback map registered for a collection key. -/
def collFuncAt {Cb : Type} (s : CallbacksHandler Cb) (key : String) : JsMap Cb :=
  match jsGet s.collectionCallbacks key with
  | some e => e.func
  | none => []

/-! ### Lemmas about the JavaScript map model -/

theorem jsGet_append_single_self {α : Type} (m : JsMap α) (k : String)
    (v : α) (h : jsHas m k = false) : jsGet (m ++ [(k, v)]) k = some v := by
  induction m with
  | nil => simp [jsGet]
  | cons kv t ih =>
      simp only [jsHas, List.any_cons, Bool.or_eq_false_iff] at h
      have hk : kv.1 ≠ k := by simpa using h.1
      simpa [jsGet, List.find?_cons, hk] using ih h.2

theorem jsGet_append_single_ne {α : Type} (m : JsMap α) (k k' : String)
    (v : α) (h : k' ≠ k) : jsGet (m ++ [(k, v)]) k' = jsGet m k' := by
  have hks : ¬(k = k') := fun hh => h hh.symm
  induction m with
  | nil => simp [jsGet, hks]
  | cons kv t ih =>
      by_cases hk : kv.1 = k'
      · simp [jsGet, List.find?_cons, hk]
      · simpa [jsGet, List.find?_cons, hk] using ih

theorem jsGet_map_replace_self {α : Type} (m : JsMap α) (k : String)
    (v : α) (h : jsHas m k = true) :
    jsGet (m.map (fun kv => if kv.1 = k then (k, v) else kv)) k = some v := by
  induction m with
  | nil => simp [jsHas] at h
  | cons kv t ih =>
      by_cases hk : kv.1 = k
      · simp [jsGet, List.find?_cons, hk]
      · simp only [jsHas, List.any_cons, hk, decide_False, Bool.false_or] at h
        simpa [jsGet, List.find?_cons, hk] using ih h

theorem jsGet_map_replace_ne {α : Type} (m : JsMap α) (k k' : String)
    (v : α) (h : k' ≠ k) :
    jsGet (m.map (fun kv => if kv.1 = k then (k, v) else kv)) k' =
      jsGet m k' := by
  induction m with
  | nil => rfl
  | cons kv t ih =>
      by_cases hk : kv.1 = k
      · have hk1 : kv.1 ≠ k' := by rw [hk]; exact fun hh => h hh.symm
        have hk2 : k ≠ k' := fun hh => h hh.symm
        simpa [jsGet, List.find?_cons, hk, hk1, hk2] using ih
      · by_cases hk' : kv.1 = k'
        · simp [jsGet, List.find?_cons, hk, hk', h]
        · simpa [jsGet, List.find?_cons, hk, hk'] using ih

theorem jsGet_jsSet_self {α : Type} (m : JsMap α) (k : String) (v : α) :
    jsGet (jsSet m k v) k = some v := by
  unfold jsSet
  by_cases h : jsHas m k = true
  · simpa [h] using jsGet_map_replace_self m k v h
  · simp only [Bool.not_eq_true] at h
    simpa [h] using jsGet_append_single_self m k v h

theorem jsGet_jsSet_ne {α : Type} (m : JsMap α) (k k' : String) (v : α)
    (h : k' ≠ k) : jsGet (jsSet m k v) k' = jsGet m k' := by
  unfold jsSet
  by_cases hh : jsHas m k = true
  · simpa [hh] using jsGet_map_replace_ne m k k' v h
  · simp only [Bool.not_eq_true] at hh
    simpa [hh] using jsGet_append_single_ne m k k' v h

theorem jsGet_jsDelete_self {α : Type} (m : JsMap α) (k : String) :
    jsGet (jsDelete m k) k = none := by
  induction m with
  | nil => rfl
  | cons kv t ih =>
      by_cases hk : kv.1 = k
      · have hih := ih
        simp only [jsDelete, decide_not] at hih
        simp [jsDelete, List.filter_cons, hk, decide_not, hih]
      · have hih := ih
        simp only [jsDelete, decide_not] at hih
        simp [jsDelete, jsGet, List.filter_cons, List.find?_cons, hk,
          decide_not, hih]

theorem jsGet_jsDelete_ne {α : Type} (m : JsMap α) (k k' : String)
    (h : k' ≠ k) : jsGet (jsDelete m k) k' = jsGet m k' := by
  have hks : ¬(k = k') := fun hh => h hh.symm
  induction m with
  | nil => rfl
  | cons kv t ih =>
      by_cases hk : kv.1 = k
      · have hk' : kv.1 ≠ k' := by rw [hk]; exact fun hh => h hh.symm
        simpa [jsDelete, jsGet, List.filter_cons, List.find?_cons, hk, hk',
          hks] using ih
      · by_cases hk'' : kv.1 = k'
        · simp [jsDelete, jsGet, List.filter_cons, List.find?_cons, hk, hk'',
            hks, h]
        · simpa [jsDelete, jsGet, List.filter_cons, List.find?_cons, hk, hk'']
            using ih

theorem jsHas_false_iff {α : Type} (m : JsMap α) (k : String) :
    jsHas m k = false ↔ ∀ kv ∈ m, kv.1 ≠ k := by
  simp [jsHas, List.any_eq_true]

theorem jsDelete_of_hasFalse {α : Type} (m : JsMap α) (k : String)
    (h : jsHas m k = false) : jsDelete m k = m := by
  rw [jsHas_false_iff] at h
  exact List.filter_eq_self.mpr (fun kv hkv => by
    simpa using h kv hkv)

theorem jsHas_iff_get_isSome {α : Type} (m : JsMap α) (k : String) :
    jsHas m k = true ↔ (jsGet m k).isSome := by
  induction m with
  | nil => simp [jsHas, jsGet]
  | cons kv t ih =>
      by_cases hk : kv.1 = k
      · simp [jsHas, jsGet, List.find?_cons, hk]
      · simp [jsHas, jsGet, List.find?_cons, hk, ih]

theorem jsGet_none_of_hasFalse {α : Type} (m : JsMap α) (k : String)
    (h : jsHas m k = false) : jsGet m k = none := by
  by_cases hg : (jsGet m k).isSome
  · rw [← jsHas_iff_get_isSome] at hg; rw [hg] at h; cases h
  · simpa [Option.isSome_iff_exists, Option.eq_none_iff_forall_not_mem] using hg

theorem jsHas_of_get_some {α : Type} (m : JsMap α) (k : String) (v : α)
    (h : jsGet m k = some v) : jsHas m k = true := by
  rw [jsHas_iff_get_isSome, h]; rfl

/-- `set` on a key already bound to the same value leaves a
duplicate-free map unchanged. -/
theorem jsSet_same {α : Type} (m : JsMap α) (k : String) (v : α)
    (hnd : (jsKeys m).Nodup) (h : jsGet m k = some v) : jsSet m k v = m := by
  induction m with
  | nil => cases h
  | cons kv t ih =>
      obtain ⟨a, b⟩ := kv
      simp only [jsKeys, List.map_cons, List.nodup_cons] at hnd
      by_cases hk : a = k
      · subst hk
        have hv : b = v := by simpa [jsGet, List.find?_cons] using h
        subst hv
        have htf : ∀ kv' ∈ t, kv'.1 ≠ a := by
          intro kv' hkv' hkk
          exact hnd.1 (by
            rw [← hkk]
            exact List.mem_map.mpr ⟨kv', hkv', rfl⟩)
        have hmap : t.map (fun kv => if kv.1 = a then (a, b) else kv) = t := by
          have h2 : t.map (fun kv => if kv.1 = a then (a, b) else kv) =
              t.map id := by
            apply List.map_congr_left
            intro kv' hkv'
            simp [htf kv' hkv']
          simpa using h2
        simp [jsSet, jsHas, hmap]
      · have h' : jsGet t k = some v := by
          simpa [jsGet, List.find?_cons, hk] using h
        have hht : jsHas t k = true := jsHas_of_get_some t k v h'
        have hset := ih hnd.2 h'
        simp only [jsHas] at hht
        simp only [jsSet, jsHas, List.any_cons, hk, decide_False,
          Bool.false_or, hht, if_true] at hset ⊢
        simp [hk, hset]

theorem jsKeys_jsSet_of_has {α : Type} (m : JsMap α) (k : String) (v : α)
    (h : jsHas m k = true) : jsKeys (jsSet m k v) = jsKeys m := by
  simp only [jsSet, h, if_true, jsKeys, List.map_map]
  apply List.map_congr_left
  intro kv _
  by_cases hk : kv.1 = k <;> simp [hk]

theorem jsSet_ne_nil {α : Type} (m : JsMap α) (k : String) (v : α) :
    jsSet m k v ≠ [] := by
  unfold jsSet
  by_cases h : jsHas m k = true
  · simp only [h, if_true]
    intro hc
    have := List.map_eq_nil_iff.mp hc
    rw [this] at h
    simp [jsHas] at h
  · simp only [Bool.not_eq_true] at h
    simp [h]

theorem jsHas_false_of_get_none {α : Type} (m : JsMap α) (k : String)
    (h : jsGet m k = none) : jsHas m k = false := by
  by_cases hh : jsHas m k = true
  · have := (jsHas_iff_get_isSome m k).mp hh
    rw [h] at this
    cases this
  · simpa using hh

theorem jsKeys_jsSet_of_hasFalse {α : Type} (m : JsMap α) (k : String)
    (v : α) (h : jsHas m k = false) :
    jsKeys (jsSet m k v) = jsKeys m ++ [k] := by
  simp [jsSet, h, jsKeys]

theorem not_mem_jsKeys_of_hasFalse {α : Type} (m : JsMap α) (k : String)
    (h : jsHas m k = false) : k ∉ jsKeys m := by
  rw [jsHas_false_iff] at h
  intro hmem
  obtain ⟨kv, hkv, hk⟩ := List.mem_map.mp hmem
  exact h kv hkv hk

theorem jsKeys_jsDelete_sublist {α : Type} (m : JsMap α) (k : String) :
    (jsKeys (jsDelete m k)).Sublist (jsKeys m) := by
  unfold jsKeys jsDelete
  exact List.Sublist.map _ (List.filter_sublist m)

/-! ### The registry/watch invariant -/

/-- The state invariant tying both registries to the set of open watches:
registry keys are duplicate-free, open-watch handle identities are
strictly increasing (hence unique) and below the fresh counter, every
registered entry is nonempty and owns exactly the one open watch recorded
in its `unsubscribe` field, and keys without an entry have no open watch. -/
structure Inv {Cb : Type} (s : CallbacksHandler Cb) : Prop where
  docKeysNodup : (jsKeys s.callbacks).Nodup
  collKeysNodup : (jsKeys s.collectionCallbacks).Nodup
  idsSorted : (s.watches.map (·.id)).Pairwise (· < ·)
  idsBound : ∀ w ∈ s.watches, w.id < s.nextWatchId
  docSome : ∀ k e, jsGet s.callbacks k = some e →
      e.func ≠ [] ∧ ∃ h, e.unsubscribe = some h ∧
        watchesOf s.watches WatchKind.doc k =
          [{ id := h, kind := WatchKind.doc, key := k }]
  docNone : ∀ k, jsGet s.callbacks k = none →
      watchesOf s.watches WatchKind.doc k = []
  collSome : ∀ k e, jsGet s.collectionCallbacks k = some e →
      e.func ≠ [] ∧ ∃ h, e.unsubscribe = some h ∧
        watchesOf s.watches WatchKind.coll k =
          [{ id := h, kind := WatchKind.coll, key := k }]
  collNone : ∀ k, jsGet s.collectionCallbacks k = none →
      watchesOf s.watches WatchKind.coll k = []

theorem inv_init (Cb : Type) : Inv (initHandler Cb) := by
  constructor <;> simp [initHandler, jsGet, jsKeys, watchesFor, watchesOf]

/-- Watch handle identities determine the watch record, under the
invariant's sortedness of identities. -/
theorem watch_id_inj {Cb : Type} {s : CallbacksHandler Cb} (hs : Inv s)
    {w w' : OpenWatch} (hw : w ∈ s.watches) (hw' : w' ∈ s.watches)
    (hid : w.id = w'.id) : w = w' := by
  have hnd : (s.watches.map (·.id)).Nodup :=
    hs.idsSorted.imp (fun hlt => Nat.ne_of_lt hlt)
  exact List.inj_on_of_nodup_map hnd hw hw' hid

/-- Members of a `watchesOf` list are watches of that kind and key. -/
theorem mem_of_watchesOf {ws : List OpenWatch} {kind : WatchKind}
    {k : String} {w : OpenWatch} (h : w ∈ watchesOf ws kind k) :
    w ∈ ws ∧ w.kind = kind ∧ w.key = k := by
  have hm := List.mem_of_mem_filter h
  have hp := List.of_mem_filter h
  simp only [Bool.and_eq_true, decide_eq_true_eq] at hp
  exact ⟨hm, hp.1, hp.2⟩

/-- Closing a watch handle filters `watchesOf` pointwise. -/
theorem watchesOf_filter_id (ws : List OpenWatch) (hid : Nat)
    (kind : WatchKind) (k : String) :
    watchesOf (ws.filter (fun w => w.id ≠ hid)) kind k =
      (watchesOf ws kind k).filter (fun w => w.id ≠ hid) := by
  simp only [watchesOf, List.filter_filter]
  apply List.filter_congr
  intro w _
  simp [Bool.and_comm]

/-- Appending a watch of the matching kind and key. -/
theorem watchesOf_append_match (ws : List OpenWatch) (w : OpenWatch)
    (kind : WatchKind) (k : String) (h1 : w.kind = kind) (h2 : w.key = k) :
    watchesOf (ws ++ [w]) kind k = watchesOf ws kind k ++ [w] := by
  simp [watchesOf, List.filter_append, h1, h2]

/-- Appending a watch of another kind or key. -/
theorem watchesOf_append_miss (ws : List OpenWatch) (w : OpenWatch)
    (kind : WatchKind) (k : String) (h : w.kind ≠ kind ∨ w.key ≠ k) :
    watchesOf (ws ++ [w]) kind k = watchesOf ws kind k := by
  rcases h with h | h <;> simp [watchesOf, List.filter_append, h]

theorem jsHas_nil {α : Type} (k : String) : jsHas ([] : JsMap α) k = false :=
  rfl

theorem jsSet_nil {α : Type} (k : String) (v : α) :
    jsSet ([] : JsMap α) k v = [(k, v)] := by
  simp [jsSet, jsHas]

/-! ### Shapes of the four public operations -/

theorem addCallback_of_get_some {Cb : Type} (s : CallbacksHandler Cb)
    (path documentId : String) (cb : Cb) (callbackId : Option String)
    (gen : String) (overwrite : Bool) (e : Callback Cb)
    (hget : jsGet s.callbacks (path ++ "/" ++ documentId) = some e) :
    addCallback s path documentId cb callbackId gen overwrite =
      ({ s with
          callbacks := jsSet s.callbacks (path ++ "/" ++ documentId)
            { e with func :=
                if overwrite then jsSet e.func (callbackId.getD gen) cb
                else if jsHas e.func (callbackId.getD gen) then e.func
                else jsSet e.func (callbackId.getD gen) cb } },
       callbackId.getD gen) := by
  simp [addCallback, hget]

theorem addCallback_of_get_none {Cb : Type} (s : CallbacksHandler Cb)
    (path documentId : String) (cb : Cb) (callbackId : Option String)
    (gen : String) (overwrite : Bool)
    (hget : jsGet s.callbacks (path ++ "/" ++ documentId) = none) :
    addCallback s path documentId cb callbackId gen overwrite =
      ({ s with
          callbacks :=
            jsSet
              (jsSet s.callbacks (path ++ "/" ++ documentId)
                { unsubscribe := some s.nextWatchId, func := [] })
              (path ++ "/" ++ documentId)
              { unsubscribe := some s.nextWatchId
                func := [(callbackId.getD gen, cb)] }
          watches := s.watches ++
            [{ id := s.nextWatchId, kind := WatchKind.doc
               key := path ++ "/" ++ documentId }]
          nextWatchId := s.nextWatchId + 1 },
       callbackId.getD gen) := by
  simp [addCallback, createDocumentCallbackEntry, hget, jsSet_nil, jsHas_nil]

theorem removeCallback_of_get_none {Cb : Type} (s : CallbacksHandler Cb)
    (path documentId cbId : String)
    (hget : jsGet s.callbacks (path ++ "/" ++ documentId) = none) :
    removeCallback s path documentId cbId = s := by
  simp [removeCallback, hget]

theorem removeCallback_of_nonempty {Cb : Type} (s : CallbacksHandler Cb)
    (path documentId cbId : String) (e : Callback Cb)
    (hget : jsGet s.callbacks (path ++ "/" ++ documentId) = some e)
    (hne : jsDelete e.func cbId ≠ []) :
    removeCallback s path documentId cbId =
      { s with
          callbacks := jsSet s.callbacks (path ++ "/" ++ documentId)
            { e with func := jsDelete e.func cbId } } := by
  have hlen : jsSize (jsDelete e.func cbId) ≠ 0 := by
    simpa [jsSize, List.length_eq_zero] using hne
  simp [removeCallback, hget, hlen]

theorem removeCallback_of_empty {Cb : Type} (s : CallbacksHandler Cb)
    (path documentId cbId : String) (e : Callback Cb)
    (hget : jsGet s.callbacks (path ++ "/" ++ documentId) = some e)
    (he : jsDelete e.func cbId = []) :
    removeCallback s path documentId cbId =
      { closeWatch s e.unsubscribe with
          callbacks :=
            jsDelete (closeWatch s e.unsubscribe).callbacks
              (path ++ "/" ++ documentId) } := by
  simp [removeCallback, hget, he, jsSize]

theorem addCollectionCallback_of_get_some {Cb : Type}
    (s : CallbacksHandler Cb) (path : String) (cb : Cb)
    (callbackId : Option String) (gen : String) (overwrite : Bool)
    (e : Callback Cb) (hget : jsGet s.collectionCallbacks path = some e) :
    addCollectionCallback s path cb callbackId gen overwrite =
      ({ s with
          collectionCallbacks := jsSet s.collectionCallbacks path
            { e with func :=
                if overwrite then jsSet e.func (callbackId.getD gen) cb
                else if jsHas e.func (callbackId.getD gen) then e.func
                else jsSet e.func (callbackId.getD gen) cb } },
       callbackId.getD gen) := by
  simp [addCollectionCallback, hget]

theorem addCollectionCallback_of_get_none {Cb : Type}
    (s : CallbacksHandler Cb) (path : String) (cb : Cb)
    (callbackId : Option String) (gen : String) (overwrite : Bool)
    (hget : jsGet s.collectionCallbacks path = none) :
    addCollectionCallback s path cb callbackId gen overwrite =
      ({ s with
          collectionCallbacks :=
            jsSet
              (jsSet s.collectionCallbacks path
                { unsubscribe := some s.nextWatchId, func := [] })
              path
              { unsubscribe := some s.nextWatchId
                func := [(callbackId.getD gen, cb)] }
          watches := s.watches ++
            [{ id := s.nextWatchId, kind := WatchKind.coll, key := path }]
          nextWatchId := s.nextWatchId + 1 },
       callbackId.getD gen) := by
  simp [addCollectionCallback, hget, jsSet_nil, jsHas_nil]

theorem removeCollectionCallback_of_get_none {Cb : Type}
    (s : CallbacksHandler Cb) (path cbId : String)
    (hget : jsGet s.collectionCallbacks path = none) :
    removeCollectionCallback s path cbId = s := by
  simp [removeCollectionCallback, hget]

theorem removeCollectionCallback_of_nonempty {Cb : Type}
    (s : CallbacksHandler Cb) (path cbId : String) (e : Callback Cb)
    (hget : jsGet s.collectionCallbacks path = some e)
    (hne : jsDelete e.func cbId ≠ []) :
    removeCollectionCallback s path cbId =
      { s with
          collectionCallbacks := jsSet s.collectionCallbacks path
            { e with func := jsDelete e.func cbId } } := by
  have hlen : jsSize (jsDelete e.func cbId) ≠ 0 := by
    simpa [jsSize, List.length_eq_zero] using hne
  simp [removeCollectionCallback, hget, hlen]

theorem removeCollectionCallback_of_empty {Cb : Type}
    (s : CallbacksHandler Cb) (path cbId : String) (e : Callback Cb)
    (hget : jsGet s.collectionCallbacks path = some e)
    (he : jsDelete e.func cbId = []) :
    removeCollectionCallback s path cbId =
      { closeWatch s e.unsubscribe with
          collectionCallbacks :=
            jsDelete (closeWatch s e.unsubscribe).collectionCallbacks path } := by
  simp [removeCollectionCallback, hget, he, jsSize]

/-! ### Invariant preservation -/

theorem inv_addCallback {Cb : Type} (s : CallbacksHandler Cb) (hs : Inv s)
    (path documentId : String) (cb : Cb) (callbackId : Option String)
    (gen : String) (overwrite : Bool) :
    Inv (addCallback s path documentId cb callbackId gen overwrite).1 := by
  rcases hget : jsGet s.callbacks (path ++ "/" ++ documentId) with _ | e
  · -- no entry yet: a fresh entry and a fresh watch appear
    rw [addCallback_of_get_none s path documentId cb callbackId gen overwrite
      hget]
    have hhasF : jsHas s.callbacks (path ++ "/" ++ documentId) = false :=
      jsHas_false_of_get_none _ _ hget
    have hhas1 : jsHas
        (jsSet s.callbacks (path ++ "/" ++ documentId)
          { unsubscribe := some s.nextWatchId, func := [] })
        (path ++ "/" ++ documentId) = true :=
      jsHas_of_get_some _ _ _ (jsGet_jsSet_self _ _ _)
    have hget1 : ∀ k', k' ≠ path ++ "/" ++ documentId →
        jsGet
          (jsSet
            (jsSet s.callbacks (path ++ "/" ++ documentId)
              { unsubscribe := some s.nextWatchId, func := [] })
            (path ++ "/" ++ documentId)
            { unsubscribe := some s.nextWatchId
              func := [(callbackId.getD gen, cb)] }) k' =
          jsGet s.callbacks k' := by
      intro k' hk'
      rw [jsGet_jsSet_ne _ _ _ _ hk', jsGet_jsSet_ne _ _ _ _ hk']
    constructor
    · rw [jsKeys_jsSet_of_has _ _ _ hhas1,
        jsKeys_jsSet_of_hasFalse _ _ _ hhasF]
      simp [List.nodup_append, hs.docKeysNodup,
        not_mem_jsKeys_of_hasFalse _ _ hhasF]
    · exact hs.collKeysNodup
    · simp only [List.map_append, List.map_cons, List.map_nil,
        List.pairwise_append]
      refine ⟨hs.idsSorted, List.pairwise_singleton _ _, ?_⟩
      intro a ha b hb
      simp only [List.mem_singleton] at hb
      subst hb
      obtain ⟨w', hw', hval⟩ := List.mem_map.mp ha
      subst hval
      exact hs.idsBound w' hw'
    · intro w' hw'
      rcases List.mem_append.mp hw' with hw' | hw'
      · exact Nat.lt_trans (hs.idsBound w' hw') (Nat.lt_succ_self _)
      · simp only [List.mem_singleton] at hw'
        subst hw'
        exact Nat.lt_succ_self _
    · intro k e'' hgk
      by_cases hk : k = path ++ "/" ++ documentId
      · subst hk
        rw [jsGet_jsSet_self] at hgk
        injection hgk with hgk
        subst hgk
        refine ⟨by simp, s.nextWatchId, rfl, ?_⟩
        show watchesOf (s.watches ++ _) _ _ = _
        rw [watchesOf_append_match _ _ _ _ rfl rfl]
        have hz : watchesOf s.watches WatchKind.doc
            (path ++ "/" ++ documentId) = [] := hs.docNone _ hget
        rw [hz]
        rfl
      · rw [hget1 k hk] at hgk
        obtain ⟨hne, h, hus, hwf⟩ := hs.docSome k e'' hgk
        refine ⟨hne, h, hus, ?_⟩
        show watchesOf (s.watches ++ _) _ _ = _
        rw [watchesOf_append_miss _ _ _ _ (Or.inr (fun hc => hk hc.symm))]
        exact hwf
    · intro k hgk
      by_cases hk : k = path ++ "/" ++ documentId
      · subst hk
        rw [jsGet_jsSet_self] at hgk
        cases hgk
      · rw [hget1 k hk] at hgk
        show watchesOf (s.watches ++ _) _ _ = _
        rw [watchesOf_append_miss _ _ _ _ (Or.inr (fun hc => hk hc.symm))]
        exact hs.docNone k hgk
    · intro k e'' hgk
      obtain ⟨hne, h, hus, hwf⟩ := hs.collSome k e'' hgk
      refine ⟨hne, h, hus, ?_⟩
      show watchesOf (s.watches ++ _) _ _ = _
      rw [watchesOf_append_miss _ _ _ _ (Or.inl (by simp))]
      exact hwf
    · intro k hgk
      show watchesOf (s.watches ++ _) _ _ = _
      rw [watchesOf_append_miss _ _ _ _ (Or.inl (by simp))]
      exact hs.collNone k hgk
  · -- entry exists: only its callback map changes
    rw [addCallback_of_get_some s path documentId cb callbackId gen overwrite
      e hget]
    have hhas : jsHas s.callbacks (path ++ "/" ++ documentId) = true :=
      jsHas_of_get_some _ _ _ hget
    constructor
    · rw [jsKeys_jsSet_of_has _ _ _ hhas]
      exact hs.docKeysNodup
    · exact hs.collKeysNodup
    · exact hs.idsSorted
    · exact hs.idsBound
    · intro k e'' hgk
      by_cases hk : k = path ++ "/" ++ documentId
      · subst hk
        rw [jsGet_jsSet_self] at hgk
        injection hgk with hgk
        subst hgk
        obtain ⟨hne, h, hus, hwf⟩ := hs.docSome _ e hget
        refine ⟨?_, h, hus, hwf⟩
        simp only []
        split_ifs with h1 h2
        · exact jsSet_ne_nil _ _ _
        · exact hne
        · exact jsSet_ne_nil _ _ _
      · rw [jsGet_jsSet_ne _ _ _ _ hk] at hgk
        exact hs.docSome k e'' hgk
    · intro k hgk
      by_cases hk : k = path ++ "/" ++ documentId
      · subst hk
        rw [jsGet_jsSet_self] at hgk
        cases hgk
      · rw [jsGet_jsSet_ne _ _ _ _ hk] at hgk
        exact hs.docNone k hgk
    · exact hs.collSome
    · exact hs.collNone

theorem inv_removeCallback {Cb : Type} (s : CallbacksHandler Cb) (hs : Inv s)
    (path documentId cbId : String) :
    Inv (removeCallback s path documentId cbId) := by
  rcases hget : jsGet s.callbacks (path ++ "/" ++ documentId) with _ | e
  · rw [removeCallback_of_get_none s path documentId cbId hget]
    exact hs
  · by_cases hemp : jsDelete e.func cbId = []
    · -- last callback removed: the entry disappears and its watch closes
      obtain ⟨hne, h, hus, hwf⟩ := hs.docSome _ e hget
      have hwh : ({ id := h, kind := WatchKind.doc,
                    key := path ++ "/" ++ documentId } : OpenWatch) ∈
          s.watches := by
        have hmem : ({ id := h, kind := WatchKind.doc,
                       key := path ++ "/" ++ documentId } : OpenWatch) ∈
            watchesOf s.watches WatchKind.doc (path ++ "/" ++ documentId) := by
          rw [hwf]
          exact List.mem_singleton_self _
        exact (mem_of_watchesOf hmem).1
      rw [removeCallback_of_empty s path documentId cbId e hget hemp, hus]
      simp only [closeWatch]
      constructor
      · exact List.Nodup.sublist (jsKeys_jsDelete_sublist _ _) hs.docKeysNodup
      · exact hs.collKeysNodup
      · exact List.Pairwise.sublist
          (List.Sublist.map _ (List.filter_sublist s.watches)) hs.idsSorted
      · intro w' hw'
        exact hs.idsBound w' (List.mem_of_mem_filter hw')
      · intro k e'' hgk
        by_cases hk : k = path ++ "/" ++ documentId
        · subst hk
          rw [jsGet_jsDelete_self] at hgk
          cases hgk
        · rw [jsGet_jsDelete_ne _ _ _ hk] at hgk
          obtain ⟨hne', h', hus', hwf'⟩ := hs.docSome k e'' hgk
          refine ⟨hne', h', hus', ?_⟩
          show watchesOf (s.watches.filter _) _ _ = _
          rw [watchesOf_filter_id, hwf']
          have hh : h' ≠ h := by
            intro hc
            subst hc
            have hw1 : ({ id := h', kind := WatchKind.doc, key := k } :
                OpenWatch) ∈ s.watches := by
              have hmem : ({ id := h', kind := WatchKind.doc, key := k } :
                  OpenWatch) ∈ watchesOf s.watches WatchKind.doc k := by
                rw [hwf']
                exact List.mem_singleton_self _
              exact (mem_of_watchesOf hmem).1
            have := watch_id_inj hs hw1 hwh rfl
            apply hk
            exact congrArg OpenWatch.key this
          simp [hh]
      · intro k _
        by_cases hk : k = path ++ "/" ++ documentId
        · subst hk
          show watchesOf (s.watches.filter _) _ _ = _
          rw [watchesOf_filter_id, hwf]
          simp
        · show watchesOf (s.watches.filter _) _ _ = _
          rw [watchesOf_filter_id]
          have hgk' : jsGet s.callbacks k = none := by
            have hgk := ‹jsGet (jsDelete s.callbacks
              (path ++ "/" ++ documentId)) k = none›
            rwa [jsGet_jsDelete_ne _ _ _ hk] at hgk
          rw [hs.docNone k hgk']
          rfl
      · intro k e'' hgk
        obtain ⟨hne', h', hus', hwf'⟩ := hs.collSome k e'' hgk
        refine ⟨hne', h', hus', ?_⟩
        show watchesOf (s.watches.filter _) _ _ = _
        rw [watchesOf_filter_id, hwf']
        have hh : h' ≠ h := by
          intro hc
          subst hc
          have hw1 : ({ id := h', kind := WatchKind.coll, key := k } :
              OpenWatch) ∈ s.watches := by
            have hmem : ({ id := h', kind := WatchKind.coll, key := k } :
                OpenWatch) ∈ watchesOf s.watches WatchKind.coll k := by
              rw [hwf']
              exact List.mem_singleton_self _
            exact (mem_of_watchesOf hmem).1
          have := watch_id_inj hs hw1 hwh rfl
          cases congrArg OpenWatch.kind this
        simp [hh]
      · intro k hgk
        show watchesOf (s.watches.filter _) _ _ = _
        rw [watchesOf_filter_id, hs.collNone k hgk]
        rfl
    · -- some callbacks remain: only the entry's map shrinks
      rw [removeCallback_of_nonempty s path documentId cbId e hget hemp]
      have hhas : jsHas s.callbacks (path ++ "/" ++ documentId) = true :=
        jsHas_of_get_some _ _ _ hget
      constructor
      · rw [jsKeys_jsSet_of_has _ _ _ hhas]
        exact hs.docKeysNodup
      · exact hs.collKeysNodup
      · exact hs.idsSorted
      · exact hs.idsBound
      · intro k e'' hgk
        by_cases hk : k = path ++ "/" ++ documentId
        · subst hk
          rw [jsGet_jsSet_self] at hgk
          injection hgk with hgk
          subst hgk
          obtain ⟨_, h, hus, hwf⟩ := hs.docSome _ e hget
          exact ⟨hemp, h, hus, hwf⟩
        · rw [jsGet_jsSet_ne _ _ _ _ hk] at hgk
          exact hs.docSome k e'' hgk
      · intro k hgk
        by_cases hk : k = path ++ "/" ++ documentId
        · subst hk
          rw [jsGet_jsSet_self] at hgk
          cases hgk
        · rw [jsGet_jsSet_ne _ _ _ _ hk] at hgk
          exact hs.docNone k hgk
      · exact hs.collSome
      · exact hs.collNone

theorem inv_addCollectionCallback {Cb : Type} (s : CallbacksHandler Cb)
    (hs : Inv s) (path : String) (cb : Cb) (callbackId : Option String)
    (gen : String) (overwrite : Bool) :
    Inv (addCollectionCallback s path cb callbackId gen overwrite).1 := by
  rcases hget : jsGet s.collectionCallbacks path with _ | e
  · rw [addCollectionCallback_of_get_none s path cb callbackId gen overwrite
      hget]
    have hhasF : jsHas s.collectionCallbacks path = false :=
      jsHas_false_of_get_none _ _ hget
    have hhas1 : jsHas
        (jsSet s.collectionCallbacks path
          { unsubscribe := some s.nextWatchId, func := [] }) path = true :=
      jsHas_of_get_some _ _ _ (jsGet_jsSet_self _ _ _)
    have hget1 : ∀ k', k' ≠ path →
        jsGet
          (jsSet
            (jsSet s.collectionCallbacks path
              { unsubscribe := some s.nextWatchId, func := [] })
            path
            { unsubscribe := some s.nextWatchId
              func := [(callbackId.getD gen, cb)] }) k' =
          jsGet s.collectionCallbacks k' := by
      intro k' hk'
      rw [jsGet_jsSet_ne _ _ _ _ hk', jsGet_jsSet_ne _ _ _ _ hk']
    constructor
    · exact hs.docKeysNodup
    · rw [jsKeys_jsSet_of_has _ _ _ hhas1,
        jsKeys_jsSet_of_hasFalse _ _ _ hhasF]
      simp [List.nodup_append, hs.collKeysNodup,
        not_mem_jsKeys_of_hasFalse _ _ hhasF]
    · simp only [List.map_append, List.map_cons, List.map_nil,
        List.pairwise_append]
      refine ⟨hs.idsSorted, List.pairwise_singleton _ _, ?_⟩
      intro a ha b hb
      simp only [List.mem_singleton] at hb
      subst hb
      obtain ⟨w', hw', hval⟩ := List.mem_map.mp ha
      subst hval
      exact hs.idsBound w' hw'
    · intro w' hw'
      rcases List.mem_append.mp hw' with hw' | hw'
      · exact Nat.lt_trans (hs.idsBound w' hw') (Nat.lt_succ_self _)
      · simp only [List.mem_singleton] at hw'
        subst hw'
        exact Nat.lt_succ_self _
    · intro k e'' hgk
      obtain ⟨hne, h, hus, hwf⟩ := hs.docSome k e'' hgk
      refine ⟨hne, h, hus, ?_⟩
      show watchesOf (s.watches ++ _) _ _ = _
      rw [watchesOf_append_miss _ _ _ _ (Or.inl (by simp))]
      exact hwf
    · intro k hgk
      show watchesOf (s.watches ++ _) _ _ = _
      rw [watchesOf_append_miss _ _ _ _ (Or.inl (by simp))]
      exact hs.docNone k hgk
    · intro k e'' hgk
      by_cases hk : k = path
      · subst hk
        rw [jsGet_jsSet_self] at hgk
        injection hgk with hgk
        subst hgk
        refine ⟨by simp, s.nextWatchId, rfl, ?_⟩
        show watchesOf (s.watches ++ _) _ _ = _
        rw [watchesOf_append_match _ _ _ _ rfl rfl]
        rw [hs.collNone _ hget]
        rfl
      · rw [hget1 k hk] at hgk
        obtain ⟨hne, h, hus, hwf⟩ := hs.collSome k e'' hgk
        refine ⟨hne, h, hus, ?_⟩
        show watchesOf (s.watches ++ _) _ _ = _
        rw [watchesOf_append_miss _ _ _ _ (Or.inr (fun hc => hk hc.symm))]
        exact hwf
    · intro k hgk
      by_cases hk : k = path
      · subst hk
        rw [jsGet_jsSet_self] at hgk
        cases hgk
      · rw [hget1 k hk] at hgk
        show watchesOf (s.watches ++ _) _ _ = _
        rw [watchesOf_append_miss _ _ _ _ (Or.inr (fun hc => hk hc.symm))]
        exact hs.collNone k hgk
  · rw [addCollectionCallback_of_get_some s path cb callbackId gen overwrite
      e hget]
    have hhas : jsHas s.collectionCallbacks path = true :=
      jsHas_of_get_some _ _ _ hget
    constructor
    · exact hs.docKeysNodup
    · rw [jsKeys_jsSet_of_has _ _ _ hhas]
      exact hs.collKeysNodup
    · exact hs.idsSorted
    · exact hs.idsBound
    · exact hs.docSome
    · exact hs.docNone
    · intro k e'' hgk
      by_cases hk : k = path
      · subst hk
        rw [jsGet_jsSet_self] at hgk
        injection hgk with hgk
        subst hgk
        obtain ⟨hne, h, hus, hwf⟩ := hs.collSome _ e hget
        refine ⟨?_, h, hus, hwf⟩
        simp only []
        split_ifs with h1 h2
        · exact jsSet_ne_nil _ _ _
        · exact hne
        · exact jsSet_ne_nil _ _ _
      · rw [jsGet_jsSet_ne _ _ _ _ hk] at hgk
        exact hs.collSome k e'' hgk
    · intro k hgk
      by_cases hk : k = path
      · subst hk
        rw [jsGet_jsSet_self] at hgk
        cases hgk
      · rw [jsGet_jsSet_ne _ _ _ _ hk] at hgk
        exact hs.collNone k hgk

theorem inv_removeCollectionCallback {Cb : Type} (s : CallbacksHandler Cb)
    (hs : Inv s) (path cbId : String) :
    Inv (removeCollectionCallback s path cbId) := by
  rcases hget : jsGet s.collectionCallbacks path with _ | e
  · rw [removeCollectionCallback_of_get_none s path cbId hget]
    exact hs
  · by_cases hemp : jsDelete e.func cbId = []
    · obtain ⟨hne, h, hus, hwf⟩ := hs.collSome _ e hget
      have hwh : ({ id := h, kind := WatchKind.coll,
                    key := path } : OpenWatch) ∈ s.watches := by
        have hmem : ({ id := h, kind := WatchKind.coll,
                       key := path } : OpenWatch) ∈
            watchesOf s.watches WatchKind.coll path := by
          rw [hwf]
          exact List.mem_singleton_self _
        exact (mem_of_watchesOf hmem).1
      rw [removeCollectionCallback_of_empty s path cbId e hget hemp, hus]
      simp only [closeWatch]
      constructor
      · exact hs.docKeysNodup
      · exact List.Nodup.sublist (jsKeys_jsDelete_sublist _ _)
          hs.collKeysNodup
      · exact List.Pairwise.sublist
          (List.Sublist.map _ (List.filter_sublist s.watches)) hs.idsSorted
      · intro w' hw'
        exact hs.idsBound w' (List.mem_of_mem_filter hw')
      · intro k e'' hgk
        obtain ⟨hne', h', hus', hwf'⟩ := hs.docSome k e'' hgk
        refine ⟨hne', h', hus', ?_⟩
        show watchesOf (s.watches.filter _) _ _ = _
        rw [watchesOf_filter_id, hwf']
        have hh : h' ≠ h := by
          intro hc
          subst hc
          have hw1 : ({ id := h', kind := WatchKind.doc, key := k } :
              OpenWatch) ∈ s.watches := by
            have hmem : ({ id := h', kind := WatchKind.doc, key := k } :
                OpenWatch) ∈ watchesOf s.watches WatchKind.doc k := by
              rw [hwf']
              exact List.mem_singleton_self _
            exact (mem_of_watchesOf hmem).1
          have := watch_id_inj hs hw1 hwh rfl
          cases congrArg OpenWatch.kind this
        simp [hh]
      · intro k hgk
        show watchesOf (s.watches.filter _) _ _ = _
        rw [watchesOf_filter_id, hs.docNone k hgk]
        rfl
      · intro k e'' hgk
        by_cases hk : k = path
        · subst hk
          rw [jsGet_jsDelete_self] at hgk
          cases hgk
        · rw [jsGet_jsDelete_ne _ _ _ hk] at hgk
          obtain ⟨hne', h', hus', hwf'⟩ := hs.collSome k e'' hgk
          refine ⟨hne', h', hus', ?_⟩
          show watchesOf (s.watches.filter _) _ _ = _
          rw [watchesOf_filter_id, hwf']
          have hh : h' ≠ h := by
            intro hc
            subst hc
            have hw1 : ({ id := h', kind := WatchKind.coll, key := k } :
                OpenWatch) ∈ s.watches := by
              have hmem : ({ id := h', kind := WatchKind.coll, key := k } :
                  OpenWatch) ∈ watchesOf s.watches WatchKind.coll k := by
                rw [hwf']
                exact List.mem_singleton_self _
              exact (mem_of_watchesOf hmem).1
            have := watch_id_inj hs hw1 hwh rfl
            apply hk
            exact congrArg OpenWatch.key this
          simp [hh]
      · intro k hgk
        by_cases hk : k = path
        · subst hk
          show watchesOf (s.watches.filter _) _ _ = _
          rw [watchesOf_filter_id, hwf]
          simp
        · show watchesOf (s.watches.filter _) _ _ = _
          rw [watchesOf_filter_id]
          have hgk' : jsGet s.collectionCallbacks k = none := by
            rwa [jsGet_jsDelete_ne _ _ _ hk] at hgk
          rw [hs.collNone k hgk']
          rfl
    · rw [removeCollectionCallback_of_nonempty s path cbId e hget hemp]
      have hhas : jsHas s.collectionCallbacks path = true :=
        jsHas_of_get_some _ _ _ hget
      constructor
      · exact hs.docKeysNodup
      · rw [jsKeys_jsSet_of_has _ _ _ hhas]
        exact hs.collKeysNodup
      · exact hs.idsSorted
      · exact hs.idsBound
      · exact hs.docSome
      · exact hs.docNone
      · intro k e'' hgk
        by_cases hk : k = path
        · subst hk
          rw [jsGet_jsSet_self] at hgk
          injection hgk with hgk
          subst hgk
          obtain ⟨_, h, hus, hwf⟩ := hs.collSome _ e hget
          exact ⟨hemp, h, hus, hwf⟩
        · rw [jsGet_jsSet_ne _ _ _ _ hk] at hgk
          exact hs.collSome k e'' hgk
      · intro k hgk
        by_cases hk : k = path
        · subst hk
          rw [jsGet_jsSet_self] at hgk
          cases hgk
        · rw [jsGet_jsSet_ne _ _ _ _ hk] at hgk
          exact hs.collNone k hgk

/-- Every operation preserves the invariant. -/
theorem inv_applyOp {Cb : Type} (s : CallbacksHandler Cb) (hs : Inv s)
    (op : Op Cb) : Inv (applyOp s op) := by
  cases op with
  | addDoc path documentId cb callbackId gen overwrite =>
      exact inv_addCallback s hs path documentId cb callbackId gen overwrite
  | removeDoc path documentId cbId =>
      exact inv_removeCallback s hs path documentId cbId
  | addColl path cb callbackId gen overwrite =>
      exact inv_addCollectionCallback s hs path cb callbackId gen overwrite
  | removeColl path cbId =>
      exact inv_removeCollectionCallback s hs path cbId

/-- Every state reachable by a sequence of public operations satisfies the
invariant. -/
theorem inv_run {Cb : Type} (ops : List (Op Cb)) : Inv (run ops) := by
  have hgen : ∀ (s : CallbacksHandler Cb), Inv s →
      Inv (ops.foldl applyOp s) := by
    induction ops with
    | nil => intro s hs; exact hs
    | cons op rest ih =>
        intro s hs
        exact ih (applyOp s op) (inv_applyOp s hs op)
  exact hgen (initHandler Cb) (inv_init Cb)

/-! ### Snapshot dispatch

The `onSnapshot` handler installed by `createDocumentCallbackEntry` runs
`this.callbacks.get(key)?.func.forEach((cb) => cb(docSnapshot))`, and the
collection handler mirrors it over `collectionCallbacks`.  JavaScript `Map`
iteration visits entries in insertion order and skips entries deleted
before being visited.  To reason about callbacks that mutate the registry
while the dispatch is running, we instantiate the callback type with a
small language of registry actions: a modelled callback is the list of
remove operations it performs when invoked (a pure observer is `[]`).
Since the actions only remove, an entry's callback map shrinks during
dispatch, and iterating "first entry whose id has not been visited yet"
over the live map is exactly the `forEach` cursor semantics. -/

/-- Registry actions a modelled callback performs when invoked. -/
inductive Act : Type
  | removeDoc (path documentId cbId : String) : Act
  | removeColl (path cbId : String) : Act
deriving DecidableEq, Repr

/-- A modelled callback: what it does to the registries when invoked. -/
abbrev Prog : Type := List Act

/-- Interpretation of one action. -/
def runAct (s : CallbacksHandler Prog) : Act → CallbacksHandler Prog
  | Act.removeDoc path documentId cbId => removeCallback s path documentId cbId
  | Act.removeColl path cbId => removeCollectionCallback s path cbId

/-- Interpretation of a modelled callback's body. -/
def runProg (s : CallbacksHandler Prog) (p : Prog) : CallbacksHandler Prog :=
  p.foldl runAct s

/-- One snapshot dispatch over the document entry at `key`: repeatedly
invoke the first not-yet-visited callback of the live entry, in insertion
order, threading registry mutations made by the invoked callbacks.  The
returned trace lists the invoked `(id, callback)` pairs in invocation
order.  `fuel` bounds the iteration; the entry's size at dispatch start
suffices since no action inserts. -/
def dispatchDocLoop (key : String) :
    Nat → List String → CallbacksHandler Prog →
      CallbacksHandler Prog × List (String × Prog)
  | 0, _, s => (s, [])
  | fuel + 1, visited, s =>
      match jsGet s.callbacks key with
      | none => (s, [])
      | some e =>
          match e.func.find? (fun kv => decide (kv.1 ∉ visited)) with
          | none => (s, [])
          | some kv =>
              let r :=
                dispatchDocLoop key fuel (kv.1 :: visited) (runProg s kv.2)
              (r.1, kv :: r.2)

/-- Deliver one document snapshot for `key`. -/
def dispatchDoc (s : CallbacksHandler Prog) (key : String) :
    CallbacksHandler Prog × List (String × Prog) :=
  dispatchDocLoop key (jsSize (funcAt s key)) [] s

/-- Mirror of `dispatchDocLoop` for the collection registry. -/
def dispatchCollLoop (key : String) :
    Nat → List String → CallbacksHandler Prog →
      CallbacksHandler Prog × List (String × Prog)
  | 0, _, s => (s, [])
  | fuel + 1, visited, s =>
      match jsGet s.collectionCallbacks key with
      | none => (s, [])
      | some e =>
          match e.func.find? (fun kv => decide (kv.1 ∉ visited)) with
          | none => (s, [])
          | some kv =>
              let r :=
                dispatchCollLoop key fuel (kv.1 :: visited) (runProg s kv.2)
              (r.1, kv :: r.2)

/-- Deliver one collection snapshot for `key`. -/
def dispatchColl (s : CallbacksHandler Prog) (key : String) :
    CallbacksHandler Prog × List (String × Prog) :=
  dispatchCollLoop key (jsSize (collFuncAt s key)) [] s

/-! ### Dispatch lemmas -/

theorem filter_unvisited_step {α : Type} (l : List (String × α))
    (visited : List String) (kv : String × α)
    (hnd : (l.map (·.1)).Nodup)
    (hfind : l.find? (fun x => decide (x.1 ∉ visited)) = some kv) :
    l.filter (fun x => decide (x.1 ∉ visited)) =
      kv :: l.filter (fun x => decide (x.1 ∉ kv.1 :: visited)) := by
  induction l with
  | nil => cases hfind
  | cons x t ih =>
      simp only [List.map_cons, List.nodup_cons] at hnd
      by_cases hx : x.1 ∈ visited
      · have hfind' : t.find? (fun y => decide (y.1 ∉ visited)) = some kv := by
          simpa [List.find?_cons, hx] using hfind
        have hrec := ih hnd.2 hfind'
        simp [List.filter_cons, hx, List.mem_cons] at hrec ⊢
        exact hrec
      · have hkv : kv = x := by
          have hx' : some x = some kv := by
            simpa [List.find?_cons, hx] using hfind
          exact (Option.some.inj hx').symm
        subst hkv
        have hcong : t.filter (fun y => decide (y.1 ∉ visited)) =
            t.filter (fun y => decide (y.1 ∉ kv.1 :: visited)) := by
          apply List.filter_congr
          intro y hy
          have hyx : y.1 ≠ kv.1 := by
            intro hc
            exact hnd.1 (hc ▸ List.mem_map.mpr ⟨y, hy, rfl⟩)
          simp [List.mem_cons, hyx]
        simp [List.filter_cons, hx, List.mem_cons] at hcong ⊢
        exact hcong

theorem dispatchDocLoop_pure (key : String) (e : Callback Prog)
    (fuel : Nat) :
    ∀ (visited : List String) (s : CallbacksHandler Prog),
      jsGet s.callbacks key = some e →
      (∀ kv ∈ e.func, kv.2 = ([] : Prog)) →
      (jsKeys e.func).Nodup →
      (e.func.filter (fun kv => decide (kv.1 ∉ visited))).length ≤ fuel →
      dispatchDocLoop key fuel visited s =
        (s, e.func.filter (fun kv => decide (kv.1 ∉ visited))) := by
  induction fuel with
  | zero =>
      intro visited s hget hpure hnd hlen
      have hfe : e.func.filter (fun kv => decide (kv.1 ∉ visited)) = [] :=
        List.length_eq_zero.mp (Nat.le_zero.mp hlen)
      have h0 : dispatchDocLoop key 0 visited s = (s, []) := rfl
      rw [h0, hfe]
  | succ fuel ih =>
      intro visited s hget hpure hnd hlen
      rcases hfind : e.func.find? (fun kv => decide (kv.1 ∉ visited))
        with _ | kv
      · have hfe : e.func.filter (fun kv => decide (kv.1 ∉ visited)) = [] := by
          rw [List.filter_eq_nil_iff]
          intro a ha
          have := List.find?_eq_none.mp hfind a ha
          simpa using this
        rw [hfe]
        simp only [decide_not] at hfind
        simp [dispatchDocLoop, hget, hfind]
      · have hkvmem : kv ∈ e.func := List.mem_of_find?_eq_some hfind
        have hkvp : kv.2 = ([] : Prog) := hpure kv hkvmem
        have hstep := filter_unvisited_step e.func visited kv hnd hfind
        have hlen' : (e.func.filter
            (fun x => decide (x.1 ∉ kv.1 :: visited))).length ≤ fuel := by
          rw [hstep] at hlen
          simpa using Nat.succ_le_succ_iff.mp (by simpa using hlen)
        have hrun : runProg s kv.2 = s := by rw [hkvp]; rfl
        have hrec := ih (kv.1 :: visited) s hget hpure hnd hlen'
        rw [hstep]
        simp only [decide_not] at hfind hrec ⊢
        simp [dispatchDocLoop, hget, hfind, hrun, hrec]

theorem dispatchCollLoop_pure (key : String) (e : Callback Prog)
    (fuel : Nat) :
    ∀ (visited : List String) (s : CallbacksHandler Prog),
      jsGet s.collectionCallbacks key = some e →
      (∀ kv ∈ e.func, kv.2 = ([] : Prog)) →
      (jsKeys e.func).Nodup →
      (e.func.filter (fun kv => decide (kv.1 ∉ visited))).length ≤ fuel →
      dispatchCollLoop key fuel visited s =
        (s, e.func.filter (fun kv => decide (kv.1 ∉ visited))) := by
  induction fuel with
  | zero =>
      intro visited s hget hpure hnd hlen
      have hfe : e.func.filter (fun kv => decide (kv.1 ∉ visited)) = [] :=
        List.length_eq_zero.mp (Nat.le_zero.mp hlen)
      have h0 : dispatchCollLoop key 0 visited s = (s, []) := rfl
      rw [h0, hfe]
  | succ fuel ih =>
      intro visited s hget hpure hnd hlen
      rcases hfind : e.func.find? (fun kv => decide (kv.1 ∉ visited))
        with _ | kv
      · have hfe : e.func.filter (fun kv => decide (kv.1 ∉ visited)) = [] := by
          rw [List.filter_eq_nil_iff]
          intro a ha
          have := List.find?_eq_none.mp hfind a ha
          simpa using this
        rw [hfe]
        simp only [decide_not] at hfind
        simp [dispatchCollLoop, hget, hfind]
      · have hkvmem : kv ∈ e.func := List.mem_of_find?_eq_some hfind
        have hkvp : kv.2 = ([] : Prog) := hpure kv hkvmem
        have hstep := filter_unvisited_step e.func visited kv hnd hfind
        have hlen' : (e.func.filter
            (fun x => decide (x.1 ∉ kv.1 :: visited))).length ≤ fuel := by
          rw [hstep] at hlen
          simpa using Nat.succ_le_succ_iff.mp (by simpa using hlen)
        have hrun : runProg s kv.2 = s := by rw [hkvp]; rfl
        have hrec := ih (kv.1 :: visited) s hget hpure hnd hlen'
        rw [hstep]
        simp only [decide_not] at hfind hrec ⊢
        simp [dispatchCollLoop, hget, hfind, hrun, hrec]

theorem closeWatch_callbacks {Cb : Type} (s : CallbacksHandler Cb)
    (o : Option Nat) : (closeWatch s o).callbacks = s.callbacks := by
  cases o <;> rfl

theorem closeWatch_collectionCallbacks {Cb : Type} (s : CallbacksHandler Cb)
    (o : Option Nat) :
    (closeWatch s o).collectionCallbacks = s.collectionCallbacks := by
  cases o <;> rfl

theorem funcAt_removeCollectionCallback {Cb : Type} (s : CallbacksHandler Cb)
    (path cbId k : String) :
    funcAt (removeCollectionCallback s path cbId) k = funcAt s k := by
  rcases hget : jsGet s.collectionCallbacks path with _ | e
  · rw [removeCollectionCallback_of_get_none s path cbId hget]
  · by_cases hemp : jsDelete e.func cbId = []
    · rw [removeCollectionCallback_of_empty s path cbId e hget hemp]
      simp [funcAt, closeWatch_callbacks]
    · rw [removeCollectionCallback_of_nonempty s path cbId e hget hemp]
      rfl

theorem funcAt_removeCallback_keys_subset {Cb : Type}
    (s : CallbacksHandler Cb) (path documentId cbId k : String) :
    jsKeys (funcAt (removeCallback s path documentId cbId) k) ⊆
      jsKeys (funcAt s k) := by
  rcases hget : jsGet s.callbacks (path ++ "/" ++ documentId) with _ | e
  · rw [removeCallback_of_get_none s path documentId cbId hget]
    exact fun a ha => ha
  · by_cases hemp : jsDelete e.func cbId = []
    · rw [removeCallback_of_empty s path documentId cbId e hget hemp]
      by_cases hk : k = path ++ "/" ++ documentId
      · subst hk
        have : jsGet
            (jsDelete (closeWatch s e.unsubscribe).callbacks
              (path ++ "/" ++ documentId)) (path ++ "/" ++ documentId) =
            none := jsGet_jsDelete_self _ _
        simp only [funcAt, this]
        intro a ha
        simp [jsKeys] at ha
      · have : jsGet
            (jsDelete (closeWatch s e.unsubscribe).callbacks
              (path ++ "/" ++ documentId)) k =
            jsGet s.callbacks k := by
          rw [jsGet_jsDelete_ne _ _ _ hk, closeWatch_callbacks]
        simp only [funcAt, this]
        exact fun a ha => ha
    · rw [removeCallback_of_nonempty s path documentId cbId e hget hemp]
      by_cases hk : k = path ++ "/" ++ documentId
      · subst hk
        have hg1 : jsGet
            (jsSet s.callbacks (path ++ "/" ++ documentId)
              { e with func := jsDelete e.func cbId })
            (path ++ "/" ++ documentId) =
            some { e with func := jsDelete e.func cbId } :=
          jsGet_jsSet_self _ _ _
        simp only [funcAt, hg1, hget]
        exact (jsKeys_jsDelete_sublist e.func cbId).subset
      · have hg1 : jsGet
            (jsSet s.callbacks (path ++ "/" ++ documentId)
              { e with func := jsDelete e.func cbId }) k =
            jsGet s.callbacks k := jsGet_jsSet_ne _ _ _ _ hk
        simp only [funcAt, hg1]
        exact fun a ha => ha

theorem funcAt_runAct_keys_subset (a : Act) (s : CallbacksHandler Prog)
    (k : String) :
    jsKeys (funcAt (runAct s a) k) ⊆ jsKeys (funcAt s k) := by
  cases a with
  | removeDoc path documentId cbId =>
      exact funcAt_removeCallback_keys_subset s path documentId cbId k
  | removeColl path cbId =>
      rw [show runAct s (Act.removeColl path cbId) =
        removeCollectionCallback s path cbId from rfl,
        funcAt_removeCollectionCallback]
      exact fun a ha => ha

theorem funcAt_runProg_keys_subset (p : Prog) :
    ∀ (s : CallbacksHandler Prog) (k : String),
      jsKeys (funcAt (runProg s p) k) ⊆ jsKeys (funcAt s k) := by
  induction p with
  | nil => intro s k a ha; exact ha
  | cons act rest ih =>
      intro s k a ha
      have h1 : runProg s (act :: rest) = runProg (runAct s act) rest := rfl
      rw [h1] at ha
      exact funcAt_runAct_keys_subset act s k (ih (runAct s act) k ha)

theorem dispatchDocLoop_not_invoked (key j : String) (fuel : Nat) :
    ∀ (visited : List String) (s : CallbacksHandler Prog),
      j ∉ jsKeys (funcAt s key) →
      ∀ kv ∈ (dispatchDocLoop key fuel visited s).2, kv.1 ≠ j := by
  induction fuel with
  | zero =>
      intro visited s _ kv hkv
      simp [dispatchDocLoop] at hkv
  | succ fuel ih =>
      intro visited s hj kv hkv
      rcases hget : jsGet s.callbacks key with _ | e
      · simp [dispatchDocLoop, hget] at hkv
      · rcases hfind : e.func.find? (fun x => decide (x.1 ∉ visited))
          with _ | kv0
        · simp only [decide_not] at hfind
          simp [dispatchDocLoop, hget, hfind] at hkv
        · simp only [dispatchDocLoop, hget, hfind, List.mem_cons] at hkv
          have hf : funcAt s key = e.func := by simp [funcAt, hget]
          rcases hkv with hkv | hkv
          · subst hkv
            have hmem : kv ∈ e.func := List.mem_of_find?_eq_some hfind
            intro hc
            apply hj
            rw [hf]
            exact hc ▸ List.mem_map.mpr ⟨kv, hmem, rfl⟩
          · refine ih (kv0.1 :: visited) (runProg s kv0.2) ?_ kv hkv
            intro hc
            exact hj (funcAt_runProg_keys_subset kv0.2 s key hc)

theorem jsSet_jsSet_same {α : Type} (m : JsMap α) (k : String) (v v' : α) :
    jsSet (jsSet m k v) k v' = jsSet m k v' := by
  by_cases h : jsHas m k = true
  · have h1 : jsHas (jsSet m k v) k = true :=
      jsHas_of_get_some _ _ _ (jsGet_jsSet_self m k v)
    simp only [jsSet, h, if_true] at h1 ⊢
    simp only [h1, if_true, List.map_map]
    apply List.map_congr_left
    intro kv _
    by_cases hk : kv.1 = k <;> simp [Function.comp, hk]
  · simp only [Bool.not_eq_true] at h
    have h1 : jsHas (jsSet m k v) k = true :=
      jsHas_of_get_some _ _ _ (jsGet_jsSet_self m k v)
    simp only [jsSet, h, Bool.false_eq_true, if_false] at h1 ⊢
    simp only [h1, if_true, List.map_append]
    have hm : m.map (fun kv => if kv.1 = k then (k, v') else kv) = m := by
      have h2 : m.map (fun kv => if kv.1 = k then (k, v') else kv) =
          m.map id := by
        apply List.map_congr_left
        intro kv hkv
        have : kv.1 ≠ k := (jsHas_false_iff m k).mp h kv hkv
        simp [this]
      simpa using h2
    simp [hm]

theorem jsHas_jsDelete_self {α : Type} (m : JsMap α) (k : String) :
    jsHas (jsDelete m k) k = false :=
  jsHas_false_of_get_none _ _ (jsGet_jsDelete_self m k)

theorem jsDelete_jsSet_fresh {α : Type} (m : JsMap α) (k : String) (v : α)
    (h : jsHas m k = false) : jsDelete (jsSet m k v) k = m := by
  simp only [jsSet, h, Bool.false_eq_true, if_false, jsDelete,
    List.filter_append]
  have hm : m.filter (fun kv => decide (kv.1 ≠ k)) = m := by
    apply List.filter_eq_self.mpr
    intro kv hkv
    simpa using (jsHas_false_iff m k).mp h kv hkv
  simp only [decide_not] at hm
  simp [hm]

theorem jsDelete_idem {α : Type} (m : JsMap α) (k : String) :
    jsDelete (jsDelete m k) k = jsDelete m k :=
  jsDelete_of_hasFalse _ _ (jsHas_jsDelete_self m k)

/-! ### The claims -/

/-- Claim C1: for every resource key, after every finite sequence of
register/unregister calls (document or collection path), the number of
currently open live handles for that key is 0 or 1, never more:
`addCallback` and `addCollectionCallback` open a new watch only when no
entry exists for the key. -/
theorem at_most_one_watch_per_key {Cb : Type} (ops : List (Op Cb))
    (key : String) :
    (watchesFor (run ops) WatchKind.doc key).length ≤ 1 ∧
    (watchesFor (run ops) WatchKind.coll key).length ≤ 1 := by
  have hs := inv_run ops
  constructor
  · simp only [watchesFor]
    rcases hget : jsGet (run ops).callbacks key with _ | e
    · rw [hs.docNone key hget]
      exact Nat.zero_le 1
    · obtain ⟨_, h, _, hwf⟩ := hs.docSome key e hget
      rw [hwf]
      exact Nat.le_refl 1
  · simp only [watchesFor]
    rcases hget : jsGet (run ops).collectionCallbacks key with _ | e
    · rw [hs.collNone key hget]
      exact Nat.zero_le 1
    · obtain ⟨_, h, _, hwf⟩ := hs.collSome key e hget
      rw [hwf]
      exact Nat.le_refl 1

/-- Claim C2: after every sequence of public operations, every entry
present in either registry has at least one callback and its open handle
is exactly the one live watch for its key; and a key with no entry has no
open watch at all — so the watch is opened the instant the entry is
created and closed, with the entry deleted, in the same step that removes
the last remaining callback (no leaked handle, no grace period). -/
theorem no_observable_empty_entry {Cb : Type} (ops : List (Op Cb))
    (k : String) (e : Callback Cb) :
    (jsGet (run ops).callbacks k = some e →
      e.func ≠ [] ∧ ∃ h, e.unsubscribe = some h ∧
        watchesFor (run ops) WatchKind.doc k =
          [{ id := h, kind := WatchKind.doc, key := k }]) ∧
    (jsGet (run ops).callbacks k = none →
      watchesFor (run ops) WatchKind.doc k = []) ∧
    (jsGet (run ops).collectionCallbacks k = some e →
      e.func ≠ [] ∧ ∃ h, e.unsubscribe = some h ∧
        watchesFor (run ops) WatchKind.coll k =
          [{ id := h, kind := WatchKind.coll, key := k }]) ∧
    (jsGet (run ops).collectionCallbacks k = none →
      watchesFor (run ops) WatchKind.coll k = []) := by
  have hs := inv_run ops
  exact ⟨hs.docSome k e, hs.docNone k, hs.collSome k e, hs.collNone k⟩

/-- Witness for C2 at concrete operation sequences: after registering one
document callback, the entry at its key is nonempty and owns exactly the
one open watch; after also removing that last callback, the key has no
entry and no open watch remains for it. -/
theorem no_observable_empty_entry_witness :
    (({ unsubscribe := some 0, func := [("x", 0)] } : Callback Nat).func ≠ []
      ∧ ∃ h, ({ unsubscribe := some 0, func := [("x", 0)] } :
          Callback Nat).unsubscribe = some h ∧
        watchesFor (run [Op.addDoc "a" "b" (0 : Nat) (some "x") "g" false])
            WatchKind.doc "a/b" =
          [{ id := h, kind := WatchKind.doc, key := "a/b" }]) ∧
    watchesFor (run [Op.addDoc "a" "b" (0 : Nat) (some "x") "g" false,
        Op.removeDoc "a" "b" "x"]) WatchKind.doc "a/b" = [] :=
  ⟨(no_observable_empty_entry [Op.addDoc "a" "b" (0 : Nat) (some "x") "g"
      false] "a/b" { unsubscribe := some 0, func := [("x", 0)] }).1
     (by decide),
   (no_observable_empty_entry [Op.addDoc "a" "b" (0 : Nat) (some "x") "g"
      false, Op.removeDoc "a" "b" "x"] "a/b"
      { unsubscribe := some 0, func := [("x", 0)] }).2.1 (by decide)⟩

/-- Claim C6: the document and collection registries are disjoint
keyspaces even for textually identical key strings: every document-path
operation leaves the collection registry unchanged, and every
collection-path operation leaves the document registry unchanged. -/
theorem doc_coll_key_isolation {Cb : Type} (s : CallbacksHandler Cb)
    (path documentId : String) (cb : Cb) (callbackId : Option String)
    (gen : String) (overwrite : Bool) (cbId : String) :
    (addCallback s path documentId cb callbackId gen
        overwrite).1.collectionCallbacks = s.collectionCallbacks ∧
    (removeCallback s path documentId cbId).collectionCallbacks =
      s.collectionCallbacks ∧
    (addCollectionCallback s path cb callbackId gen overwrite).1.callbacks =
      s.callbacks ∧
    (removeCollectionCallback s path cbId).callbacks = s.callbacks := by
  refine ⟨?_, ?_, ?_, ?_⟩
  · rcases hget : jsGet s.callbacks (path ++ "/" ++ documentId) with _ | e
    · rw [addCallback_of_get_none s path documentId cb callbackId gen
        overwrite hget]
    · rw [addCallback_of_get_some s path documentId cb callbackId gen
        overwrite e hget]
  · rcases hget : jsGet s.callbacks (path ++ "/" ++ documentId) with _ | e
    · rw [removeCallback_of_get_none s path documentId cbId hget]
    · by_cases hemp : jsDelete e.func cbId = []
      · rw [removeCallback_of_empty s path documentId cbId e hget hemp]
        exact closeWatch_collectionCallbacks s e.unsubscribe
      · rw [removeCallback_of_nonempty s path documentId cbId e hget hemp]
  · rcases hget : jsGet s.collectionCallbacks path with _ | e
    · rw [addCollectionCallback_of_get_none s path cb callbackId gen
        overwrite hget]
    · rw [addCollectionCallback_of_get_some s path cb callbackId gen
        overwrite e hget]
  · rcases hget : jsGet s.collectionCallbacks path with _ | e
    · rw [removeCollectionCallback_of_get_none s path cbId hget]
    · by_cases hemp : jsDelete e.func cbId = []
      · rw [removeCollectionCallback_of_empty s path cbId e hget hemp]
        exact closeWatch_callbacks s e.unsubscribe
      · rw [removeCollectionCallback_of_nonempty s path cbId e hget hemp]

/-- Claim C10: unregistration is idempotent: applying `removeCallback`
(resp. `removeCollectionCallback`) twice with the same arguments yields
the same registry state as applying it once. -/
theorem remove_idempotent {Cb : Type} (s : CallbacksHandler Cb)
    (path documentId cbId : String) :
    removeCallback (removeCallback s path documentId cbId) path documentId
        cbId = removeCallback s path documentId cbId ∧
    removeCollectionCallback (removeCollectionCallback s path cbId) path
        cbId = removeCollectionCallback s path cbId := by
  constructor
  · rcases hget : jsGet s.callbacks (path ++ "/" ++ documentId) with _ | e
    · simp only [removeCallback_of_get_none s path documentId cbId hget]
    · by_cases hemp : jsDelete e.func cbId = []
      · have hget1 : jsGet (removeCallback s path documentId
            cbId).callbacks (path ++ "/" ++ documentId) = none := by
          rw [removeCallback_of_empty s path documentId cbId e hget hemp]
          exact jsGet_jsDelete_self _ _
        exact removeCallback_of_get_none _ path documentId cbId hget1
      · rw [removeCallback_of_nonempty s path documentId cbId e hget hemp]
        have hget1 : jsGet (jsSet s.callbacks (path ++ "/" ++ documentId)
            { e with func := jsDelete e.func cbId })
            (path ++ "/" ++ documentId) =
            some { e with func := jsDelete e.func cbId } :=
          jsGet_jsSet_self _ _ _
        have hne1 : jsDelete ({ e with func := jsDelete e.func cbId} :
            Callback Cb).func cbId ≠ [] := by
          simpa [jsDelete_idem] using hemp
        rw [removeCallback_of_nonempty _ path documentId cbId _ hget1 hne1]
        simp [jsDelete_idem, jsSet_jsSet_same]
  · rcases hget : jsGet s.collectionCallbacks path with _ | e
    · simp only [removeCollectionCallback_of_get_none s path cbId hget]
    · by_cases hemp : jsDelete e.func cbId = []
      · have hget1 : jsGet (removeCollectionCallback s path
            cbId).collectionCallbacks path = none := by
          rw [removeCollectionCallback_of_empty s path cbId e hget hemp]
          exact jsGet_jsDelete_self _ _
        exact removeCollectionCallback_of_get_none _ path cbId hget1
      · rw [removeCollectionCallback_of_nonempty s path cbId e hget hemp]
        have hget1 : jsGet (jsSet s.collectionCallbacks path
            { e with func := jsDelete e.func cbId }) path =
            some { e with func := jsDelete e.func cbId } :=
          jsGet_jsSet_self _ _ _
        have hne1 : jsDelete ({ e with func := jsDelete e.func cbId} :
            Callback Cb).func cbId ≠ [] := by
          simpa [jsDelete_idem] using hemp
        rw [removeCollectionCallback_of_nonempty _ path cbId _ hget1 hne1]
        simp [jsDelete_idem, jsSet_jsSet_same]

/-- Claim C4: registering under a caller-supplied id that already exists
in the key's entry replaces the stored callback when `overwrite` is true;
when `overwrite` is false the previous callback stays bound to the id and
the registry state is unchanged — a silent no-op, not an error.  Both the
document and the collection path behave this way. -/
theorem overwrite_collision_semantics {Cb : Type} (s : CallbacksHandler Cb)
    (path documentId : String) (cb old : Cb) (cbId gen : String)
    (e : Callback Cb) :
    (jsGet s.callbacks (path ++ "/" ++ documentId) = some e →
     jsGet e.func cbId = some old →
      ((jsKeys s.callbacks).Nodup →
        addCallback s path documentId cb (some cbId) gen false = (s, cbId)) ∧
      jsGet (funcAt (addCallback s path documentId cb (some cbId) gen
          true).1 (path ++ "/" ++ documentId)) cbId = some cb) ∧
    (jsGet s.collectionCallbacks path = some e →
     jsGet e.func cbId = some old →
      ((jsKeys s.collectionCallbacks).Nodup →
        addCollectionCallback s path cb (some cbId) gen false = (s, cbId)) ∧
      jsGet (collFuncAt (addCollectionCallback s path cb (some cbId) gen
          true).1 path) cbId = some cb) := by
  constructor
  · intro hget hold
    have hhas : jsHas e.func cbId = true := jsHas_of_get_some _ _ _ hold
    constructor
    · intro hnd
      rw [addCallback_of_get_some s path documentId cb (some cbId) gen
        false e hget]
      simp only [Option.getD_some, Bool.false_eq_true, if_false, hhas,
        if_true]
      rw [show ({ e with func := e.func } : Callback Cb) = e from rfl,
        jsSet_same s.callbacks _ e hnd hget]
    · rw [addCallback_of_get_some s path documentId cb (some cbId) gen
        true e hget]
      simp only [if_true, funcAt, jsGet_jsSet_self]
      exact jsGet_jsSet_self _ _ _
  · intro hget hold
    have hhas : jsHas e.func cbId = true := jsHas_of_get_some _ _ _ hold
    constructor
    · intro hnd
      rw [addCollectionCallback_of_get_some s path cb (some cbId) gen
        false e hget]
      simp only [Option.getD_some, Bool.false_eq_true, if_false, hhas,
        if_true]
      rw [show ({ e with func := e.func } : Callback Cb) = e from rfl,
        jsSet_same s.collectionCallbacks _ e hnd hget]
    · rw [addCollectionCallback_of_get_some s path cb (some cbId) gen
        true e hget]
      simp only [if_true, collFuncAt, jsGet_jsSet_self]
      exact jsGet_jsSet_self _ _ _

/-- Witness for C4 at a concrete state: one registered callback under id
"x"; re-registering with overwrite=false is a no-op returning "x", and
with overwrite=true the stored callback becomes the new one. -/
theorem overwrite_collision_semantics_witness :
    ((jsKeys (run [Op.addDoc "a" "b" (0 : Nat) (some "x") "g"
          false]).callbacks).Nodup →
      addCallback (run [Op.addDoc "a" "b" (0 : Nat) (some "x") "g" false])
          "a" "b" 1 (some "x") "g2" false =
        (run [Op.addDoc "a" "b" (0 : Nat) (some "x") "g" false], "x")) ∧
    jsGet (funcAt (addCallback (run [Op.addDoc "a" "b" (0 : Nat) (some "x")
        "g" false]) "a" "b" 1 (some "x") "g2" true).1 ("a" ++ "/" ++ "b"))
      "x" = some 1 :=
  (overwrite_collision_semantics
      (run [Op.addDoc "a" "b" (0 : Nat) (some "x") "g" false]) "a" "b" 1 0
      "x" "g2" { unsubscribe := some 0, func := [("x", 0)] }).1
    (by decide) (by decide)

/-- Claim C5: an unregister call whose callback id is absent from the
key's entry, or whose key has no entry at all, leaves the registry state
exactly unchanged and never raises, for every reachable state, on the
document and the collection path alike. -/
theorem removal_of_absent_is_noop {Cb : Type} (ops : List (Op Cb))
    (path documentId cbId : String) :
    ((jsGet (run ops).callbacks (path ++ "/" ++ documentId) = none ∨
      (∃ e, jsGet (run ops).callbacks (path ++ "/" ++ documentId) = some e ∧
        jsHas e.func cbId = false)) →
      removeCallback (run ops) path documentId cbId = run ops) ∧
    ((jsGet (run ops).collectionCallbacks path = none ∨
      (∃ e, jsGet (run ops).collectionCallbacks path = some e ∧
        jsHas e.func cbId = false)) →
      removeCollectionCallback (run ops) path cbId = run ops) := by
  have hs := inv_run ops
  constructor
  · rintro (hget | ⟨e, hget, hhf⟩)
    · exact removeCallback_of_get_none _ path documentId cbId hget
    · have hdel : jsDelete e.func cbId = e.func :=
        jsDelete_of_hasFalse _ _ hhf
      have hne : jsDelete e.func cbId ≠ [] := by
        rw [hdel]
        exact (hs.docSome _ e hget).1
      rw [removeCallback_of_nonempty (run ops) path documentId cbId e hget
        hne, hdel,
        show ({ e with func := e.func } : Callback Cb) = e from rfl,
        jsSet_same (run ops).callbacks _ e hs.docKeysNodup hget]
  · rintro (hget | ⟨e, hget, hhf⟩)
    · exact removeCollectionCallback_of_get_none _ path cbId hget
    · have hdel : jsDelete e.func cbId = e.func :=
        jsDelete_of_hasFalse _ _ hhf
      have hne : jsDelete e.func cbId ≠ [] := by
        rw [hdel]
        exact (hs.collSome _ e hget).1
      rw [removeCollectionCallback_of_nonempty (run ops) path cbId e hget
        hne, hdel,
        show ({ e with func := e.func } : Callback Cb) = e from rfl,
        jsSet_same (run ops).collectionCallbacks _ e hs.collKeysNodup hget]

/-- Witness for C5 at a concrete state: removing a nonexistent id from a
key with one callback, and removing from an absent collection key, both
leave the state unchanged. -/
theorem removal_of_absent_is_noop_witness :
    (removeCallback (run [Op.addDoc "a" "b" (0 : Nat) (some "x") "g"
        false]) "a" "b" "nonexistent-id" =
      run [Op.addDoc "a" "b" (0 : Nat) (some "x") "g" false]) ∧
    (removeCollectionCallback (run [Op.addDoc "a" "b" (0 : Nat) (some "x")
        "g" false]) "a" "nonexistent-id" =
      run [Op.addDoc "a" "b" (0 : Nat) (some "x") "g" false]) :=
  ⟨(removal_of_absent_is_noop [Op.addDoc "a" "b" (0 : Nat) (some "x") "g"
        false] "a" "b" "nonexistent-id").1
      (Or.inr ⟨{ unsubscribe := some 0, func := [("x", 0)] }, by decide,
        by decide⟩),
   (removal_of_absent_is_noop [Op.addDoc "a" "b" (0 : Nat) (some "x") "g"
        false] "a" "b" "nonexistent-id").2 (Or.inl (by decide))⟩

/-- Claim C9: registering with overwrite=true under an existing id
replaces the stored callback while preserving that id's position in the
entry's insertion order: the id sequence of the callback map is unchanged
and the id is now bound to the new callback, so the replacement fires in
the original position on the next snapshot. -/
theorem overwrite_preserves_position {Cb : Type} (s : CallbacksHandler Cb)
    (path documentId : String) (cb old : Cb) (cbId gen : String)
    (e : Callback Cb) :
    (jsGet s.callbacks (path ++ "/" ++ documentId) = some e →
     jsGet e.func cbId = some old →
      jsKeys (funcAt (addCallback s path documentId cb (some cbId) gen
          true).1 (path ++ "/" ++ documentId)) = jsKeys e.func ∧
      jsGet (funcAt (addCallback s path documentId cb (some cbId) gen
          true).1 (path ++ "/" ++ documentId)) cbId = some cb) ∧
    (jsGet s.collectionCallbacks path = some e →
     jsGet e.func cbId = some old →
      jsKeys (collFuncAt (addCollectionCallback s path cb (some cbId) gen
          true).1 path) = jsKeys e.func ∧
      jsGet (collFuncAt (addCollectionCallback s path cb (some cbId) gen
          true).1 path) cbId = some cb) := by
  constructor
  · intro hget hold
    have hhas : jsHas e.func cbId = true := jsHas_of_get_some _ _ _ hold
    rw [addCallback_of_get_some s path documentId cb (some cbId) gen true
      e hget]
    simp only [if_true, funcAt, jsGet_jsSet_self]
    exact ⟨jsKeys_jsSet_of_has _ _ _ hhas, jsGet_jsSet_self _ _ _⟩
  · intro hget hold
    have hhas : jsHas e.func cbId = true := jsHas_of_get_some _ _ _ hold
    rw [addCollectionCallback_of_get_some s path cb (some cbId) gen true
      e hget]
    simp only [if_true, collFuncAt, jsGet_jsSet_self]
    exact ⟨jsKeys_jsSet_of_has _ _ _ hhas, jsGet_jsSet_self _ _ _⟩

/-- Witness for C9 at a concrete state: with callbacks under ids "x" then
"y", overwriting "x" keeps the order ["x", "y"] and rebinds "x". -/
theorem overwrite_preserves_position_witness :
    jsKeys (funcAt (addCallback (run [Op.addDoc "a" "b" (0 : Nat)
        (some "x") "g" false, Op.addDoc "a" "b" (1 : Nat) (some "y") "g"
        false]) "a" "b" 2 (some "x") "g2" true).1 ("a" ++ "/" ++ "b")) =
      jsKeys [("x", (0 : Nat)), ("y", 1)] ∧
    jsGet (funcAt (addCallback (run [Op.addDoc "a" "b" (0 : Nat) (some "x")
        "g" false, Op.addDoc "a" "b" (1 : Nat) (some "y") "g" false]) "a"
        "b" 2 (some "x") "g2" true).1 ("a" ++ "/" ++ "b")) "x" = some 2 :=
  (overwrite_preserves_position (run [Op.addDoc "a" "b" (0 : Nat)
      (some "x") "g" false, Op.addDoc "a" "b" (1 : Nat) (some "y") "g"
      false]) "a" "b" 2 0 "x" "g2"
      { unsubscribe := some 0, func := [("x", 0), ("y", 1)] }).1
    (by decide) (by decide)

/-- Claim C7: every register call returns the id actually used for the
registration — the caller-supplied id when one is given, otherwise the
generated one — and, when that id was not already registered under the
key, unregistering the same resource with the returned id removes exactly
the registration made by that call, restoring the key's callback map. -/
theorem returned_id_removes_registration {Cb : Type}
    (s : CallbacksHandler Cb) (path documentId : String) (cb : Cb)
    (callbackId : Option String) (gen : String) (overwrite : Bool) :
    (addCallback s path documentId cb callbackId gen overwrite).2 =
        callbackId.getD gen ∧
    (addCollectionCallback s path cb callbackId gen overwrite).2 =
        callbackId.getD gen ∧
    (jsHas (funcAt s (path ++ "/" ++ documentId)) (callbackId.getD gen) =
        false →
      funcAt (removeCallback (addCallback s path documentId cb callbackId
          gen overwrite).1 path documentId
          (addCallback s path documentId cb callbackId gen overwrite).2)
        (path ++ "/" ++ documentId) =
        funcAt s (path ++ "/" ++ documentId)) ∧
    (jsHas (collFuncAt s path) (callbackId.getD gen) = false →
      collFuncAt (removeCollectionCallback (addCollectionCallback s path cb
          callbackId gen overwrite).1 path
          (addCollectionCallback s path cb callbackId gen overwrite).2)
        path = collFuncAt s path) := by
  have hret : (addCallback s path documentId cb callbackId gen
      overwrite).2 = callbackId.getD gen := by
    rcases hget : jsGet s.callbacks (path ++ "/" ++ documentId) with _ | e
    · rw [addCallback_of_get_none s path documentId cb callbackId gen
        overwrite hget]
    · rw [addCallback_of_get_some s path documentId cb callbackId gen
        overwrite e hget]
  have hretc : (addCollectionCallback s path cb callbackId gen
      overwrite).2 = callbackId.getD gen := by
    rcases hget : jsGet s.collectionCallbacks path with _ | e
    · rw [addCollectionCallback_of_get_none s path cb callbackId gen
        overwrite hget]
    · rw [addCollectionCallback_of_get_some s path cb callbackId gen
        overwrite e hget]
  refine ⟨hret, hretc, ?_, ?_⟩
  · intro hfresh
    rw [hret]
    rcases hget : jsGet s.callbacks (path ++ "/" ++ documentId) with _ | e
    · -- the call created the entry; removal deletes it again
      rw [addCallback_of_get_none s path documentId cb callbackId gen
        overwrite hget]
      have hget1 : jsGet
          (jsSet (jsSet s.callbacks (path ++ "/" ++ documentId)
            { unsubscribe := some s.nextWatchId, func := [] })
            (path ++ "/" ++ documentId)
            { unsubscribe := some s.nextWatchId
              func := [(callbackId.getD gen, cb)] })
          (path ++ "/" ++ documentId) =
          some { unsubscribe := some s.nextWatchId
                 func := [(callbackId.getD gen, cb)] } :=
        jsGet_jsSet_self _ _ _
      have hdel : jsDelete ([(callbackId.getD gen, cb)] : JsMap Cb)
          (callbackId.getD gen) = [] := by
        simp [jsDelete]
      rw [removeCallback_of_empty _ path documentId (callbackId.getD gen)
        _ hget1 hdel]
      simp only [funcAt, hget, closeWatch_callbacks]
      rw [jsGet_jsDelete_self]
    · -- the entry existed; the fresh binding is appended then deleted
      have hfe : funcAt s (path ++ "/" ++ documentId) = e.func := by
        simp [funcAt, hget]
      rw [hfe] at hfresh ⊢
      rw [addCallback_of_get_some s path documentId cb callbackId gen
        overwrite e hget]
      have hfunc' :
          (if overwrite then jsSet e.func (callbackId.getD gen) cb
           else if jsHas e.func (callbackId.getD gen) then e.func
           else jsSet e.func (callbackId.getD gen) cb) =
          jsSet e.func (callbackId.getD gen) cb := by
        rw [hfresh]
        simp
      rw [hfunc']
      have hget1 : jsGet (jsSet s.callbacks (path ++ "/" ++ documentId)
          { e with func := jsSet e.func (callbackId.getD gen) cb })
          (path ++ "/" ++ documentId) =
          some { e with func := jsSet e.func (callbackId.getD gen) cb } :=
        jsGet_jsSet_self _ _ _
      have hdel : jsDelete (jsSet e.func (callbackId.getD gen) cb)
          (callbackId.getD gen) = e.func :=
        jsDelete_jsSet_fresh _ _ _ hfresh
      by_cases hef : e.func = []
      · have hdel0 : jsDelete ({ e with
            func := jsSet e.func (callbackId.getD gen) cb } :
            Callback Cb).func (callbackId.getD gen) = [] := by
          simpa [hdel] using hef
        rw [removeCallback_of_empty _ path documentId
          (callbackId.getD gen) _ hget1 hdel0]
        simp only [funcAt, closeWatch_callbacks]
        rw [jsGet_jsDelete_self]
        exact hef.symm
      · have hdel1 : jsDelete ({ e with
            func := jsSet e.func (callbackId.getD gen) cb } :
            Callback Cb).func (callbackId.getD gen) ≠ [] := by
          simpa [hdel] using hef
        rw [removeCallback_of_nonempty _ path documentId
          (callbackId.getD gen) _ hget1 hdel1]
        simp only [funcAt, jsGet_jsSet_self]
        simpa using hdel
  · intro hfresh
    rw [hretc]
    rcases hget : jsGet s.collectionCallbacks path with _ | e
    · rw [addCollectionCallback_of_get_none s path cb callbackId gen
        overwrite hget]
      have hget1 : jsGet
          (jsSet (jsSet s.collectionCallbacks path
            { unsubscribe := some s.nextWatchId, func := [] }) path
            { unsubscribe := some s.nextWatchId
              func := [(callbackId.getD gen, cb)] }) path =
          some { unsubscribe := some s.nextWatchId
                 func := [(callbackId.getD gen, cb)] } :=
        jsGet_jsSet_self _ _ _
      have hdel : jsDelete ([(callbackId.getD gen, cb)] : JsMap Cb)
          (callbackId.getD gen) = [] := by
        simp [jsDelete]
      rw [removeCollectionCallback_of_empty _ path (callbackId.getD gen)
        _ hget1 hdel]
      simp only [collFuncAt, hget, closeWatch_collectionCallbacks]
      rw [jsGet_jsDelete_self]
    · have hfe : collFuncAt s path = e.func := by
        simp [collFuncAt, hget]
      rw [hfe] at hfresh ⊢
      rw [addCollectionCallback_of_get_some s path cb callbackId gen
        overwrite e hget]
      have hfunc' :
          (if overwrite then jsSet e.func (callbackId.getD gen) cb
           else if jsHas e.func (callbackId.getD gen) then e.func
           else jsSet e.func (callbackId.getD gen) cb) =
          jsSet e.func (callbackId.getD gen) cb := by
        rw [hfresh]
        simp
      rw [hfunc']
      have hget1 : jsGet (jsSet s.collectionCallbacks path
          { e with func := jsSet e.func (callbackId.getD gen) cb }) path =
          some { e with func := jsSet e.func (callbackId.getD gen) cb } :=
        jsGet_jsSet_self _ _ _
      have hdel : jsDelete (jsSet e.func (callbackId.getD gen) cb)
          (callbackId.getD gen) = e.func :=
        jsDelete_jsSet_fresh _ _ _ hfresh
      by_cases hef : e.func = []
      · have hdel0 : jsDelete ({ e with
            func := jsSet e.func (callbackId.getD gen) cb } :
            Callback Cb).func (callbackId.getD gen) = [] := by
          simpa [hdel] using hef
        rw [removeCollectionCallback_of_empty _ path
          (callbackId.getD gen) _ hget1 hdel0]
        simp only [collFuncAt, closeWatch_collectionCallbacks]
        rw [jsGet_jsDelete_self]
        exact hef.symm
      · have hdel1 : jsDelete ({ e with
            func := jsSet e.func (callbackId.getD gen) cb } :
            Callback Cb).func (callbackId.getD gen) ≠ [] := by
          simpa [hdel] using hef
        rw [removeCollectionCallback_of_nonempty _ path
          (callbackId.getD gen) _ hget1 hdel1]
        simp only [collFuncAt, jsGet_jsSet_self]
        simpa using hdel

/-- Witness for C7 at a concrete state: registering with a generated id
on a key that already holds "x" returns the generated id, and removing it
restores the entry's callback map. -/
theorem returned_id_removes_registration_witness :
    (addCallback (run [Op.addDoc "a" "b" (0 : Nat) (some "x") "g" false])
        "a" "b" 1 none "gen1" false).2 = (none : Option String).getD "gen1" ∧
    funcAt (removeCallback (addCallback (run [Op.addDoc "a" "b" (0 : Nat)
        (some "x") "g" false]) "a" "b" 1 none "gen1" false).1 "a" "b"
        (addCallback (run [Op.addDoc "a" "b" (0 : Nat) (some "x") "g"
          false]) "a" "b" 1 none "gen1" false).2) ("a" ++ "/" ++ "b") =
      funcAt (run [Op.addDoc "a" "b" (0 : Nat) (some "x") "g" false])
        ("a" ++ "/" ++ "b") :=
  ⟨(returned_id_removes_registration (run [Op.addDoc "a" "b" (0 : Nat)
      (some "x") "g" false]) "a" "b" 1 none "gen1" false).1,
   (returned_id_removes_registration (run [Op.addDoc "a" "b" (0 : Nat)
      (some "x") "g" false]) "a" "b" 1 none "gen1" false).2.2.1
     (by decide)⟩

/-- Claim C3: for a key whose entry holds N registered callbacks, a
single snapshot delivery invokes each of them exactly once, in the
insertion order of the entry's callback map, and invokes no callback
registered under any other key: the dispatch trace is exactly the entry's
callback map and the state is unchanged.  Stated for pure observers
(callbacks that do not mutate the registries), on both the document and
the collection path. -/
theorem fanout_complete_in_order (s : CallbacksHandler Prog) (key : String)
    (e : Callback Prog) (hpure : ∀ kv ∈ e.func, kv.2 = ([] : Prog))
    (hnd : (jsKeys e.func).Nodup) :
    (jsGet s.callbacks key = some e → dispatchDoc s key = (s, e.func)) ∧
    (jsGet s.collectionCallbacks key = some e →
      dispatchColl s key = (s, e.func)) := by
  have hfil : e.func.filter (fun kv => decide (kv.1 ∉ ([] : List String)))
      = e.func := by simp
  constructor
  · intro hget
    have hfa : funcAt s key = e.func := by simp [funcAt, hget]
    have hlen : (e.func.filter
        (fun kv => decide (kv.1 ∉ ([] : List String)))).length ≤
        jsSize (funcAt s key) := by
      rw [hfil, hfa]
      exact Nat.le_refl _
    have hloop := dispatchDocLoop_pure key e (jsSize (funcAt s key)) [] s
      hget hpure hnd hlen
    rw [dispatchDoc, hloop, hfil]
  · intro hget
    have hfa : collFuncAt s key = e.func := by simp [collFuncAt, hget]
    have hlen : (e.func.filter
        (fun kv => decide (kv.1 ∉ ([] : List String)))).length ≤
        jsSize (collFuncAt s key) := by
      rw [hfil, hfa]
      exact Nat.le_refl _
    have hloop := dispatchCollLoop_pure key e (jsSize (collFuncAt s key))
      [] s hget hpure hnd hlen
    rw [dispatchColl, hloop, hfil]

/-- Witness for C3 at a concrete state: two pure callbacks "A" then "B"
on one document key; a snapshot delivery invokes exactly them, in order,
and leaves the state unchanged. -/
theorem fanout_complete_in_order_witness :
    dispatchDoc (run [Op.addDoc "c" "d" ([] : Prog) (some "A") "g" false,
        Op.addDoc "c" "d" ([] : Prog) (some "B") "g" false]) "c/d" =
      (run [Op.addDoc "c" "d" ([] : Prog) (some "A") "g" false,
        Op.addDoc "c" "d" ([] : Prog) (some "B") "g" false],
       [("A", []), ("B", [])]) :=
  (fanout_complete_in_order (run [Op.addDoc "c" "d" ([] : Prog) (some "A")
      "g" false, Op.addDoc "c" "d" ([] : Prog) (some "B") "g" false])
      "c/d" { unsubscribe := some 0, func := [("A", []), ("B", [])] }
      (by decide) (by decide)).1 (by decide)

/-- Claim C8: a callback whose id is absent from the key's live entry —
in particular one unregistered earlier in the current dispatch by another
callback — is never invoked from that point on: not in the remainder of
the dispatch (the loop continued from the mid-dispatch state with any set
of already-visited ids) and not by any subsequent snapshot delivered from
a state where it is still unregistered. -/
theorem removed_callback_never_invoked (key j : String) (fuel : Nat)
    (visited : List String) (s : CallbacksHandler Prog)
    (hj : j ∉ jsKeys (funcAt s key)) :
    (∀ kv ∈ (dispatchDocLoop key fuel visited s).2, kv.1 ≠ j) ∧
    (∀ kv ∈ (dispatchDoc s key).2, kv.1 ≠ j) :=
  ⟨dispatchDocLoop_not_invoked key j fuel visited s hj,
   dispatchDocLoop_not_invoked key j _ [] s hj⟩

/-- Witness for C8 at the concrete mid-dispatch state reached after
callback "A" (whose body unregisters "B") has run: "B" is absent from the
live entry, is not invoked in the rest of that dispatch, and is not
invoked by the next snapshot. -/
theorem removed_callback_never_invoked_witness :
    "B" ∉ jsKeys (funcAt (runProg (run [Op.addDoc "c" "d"
        [Act.removeDoc "c" "d" "B"] (some "A") "g" false,
        Op.addDoc "c" "d" ([] : Prog) (some "B") "g" false])
        [Act.removeDoc "c" "d" "B"]) "c/d") ∧
    ((∀ kv ∈ (dispatchDocLoop "c/d" 1 ["A"] (runProg (run [Op.addDoc "c"
        "d" [Act.removeDoc "c" "d" "B"] (some "A") "g" false,
        Op.addDoc "c" "d" ([] : Prog) (some "B") "g" false])
        [Act.removeDoc "c" "d" "B"])).2, kv.1 ≠ "B") ∧
     (∀ kv ∈ (dispatchDoc (runProg (run [Op.addDoc "c" "d"
        [Act.removeDoc "c" "d" "B"] (some "A") "g" false,
        Op.addDoc "c" "d" ([] : Prog) (some "B") "g" false])
        [Act.removeDoc "c" "d" "B"]) "c/d").2, kv.1 ≠ "B")) :=
  ⟨by decide,
   removed_callback_never_invoked "c/d" "B" 1 ["A"]
     (runProg (run [Op.addDoc "c" "d" [Act.removeDoc "c" "d" "B"]
        (some "A") "g" false, Op.addDoc "c" "d" ([] : Prog) (some "B") "g"
        false]) [Act.removeDoc "c" "d" "B"]) (by decide)⟩

end VoiceBuddy
